import Mathlib

/-!
# drw.c: a shallow embedding of the drawing layer

The functions of `src/drw.c` are translated into total Lean functions over an
explicit `World`: the drawing context the `Drw *` argument points to together
with a chronological trace of the Xlib/Xft calls (and of the stores into the
local truncation buffer) the C code performs.  Xlib itself is external; its
query functions are the fields of an `Xlib` record, and resource handles are
natural numbers handed out from a counter.

Machine integers: `int` values are `Int`, `unsigned int` values are `Nat`, and
every place where the C code mixes the two or can wrap is written with an
explicit reduction modulo `2^32` (`toUInt`, `toInt32`, `uadd`, `usub`, `iadd`).
Signed overflow of `int` additions (`x+1`, `ascent + descent + 2`) is undefined
in C; `iadd` gives the two-complement result the compiled code produces, so
every value the model emits is one an `int` can hold.
-/

set_option linter.unusedVariables false

namespace DrwC

/-- One `char` of a C string, as its numeric value. -/
abbrev Byte := Nat

/-- The character `'.'`. -/
def DOT : Byte := 46

/-- Conversion of an `int` (or `short`) value to `unsigned int`. -/
def toUInt (i : Int) : Nat := (i % 4294967296).toNat

/-- Conversion of an integer value to `int` (two-complement wrap to 32 bits). -/
def toInt32 (i : Int) : Int :=
  if i % 4294967296 < 2147483648 then i % 4294967296 else i % 4294967296 - 4294967296

/-- Addition of two `int` values, wrapped to 32 bits. -/
def iadd (a b : Int) : Int := toInt32 (a + b)

/-- Addition of two `unsigned int` values. -/
def uadd (a b : Nat) : Nat := (a + b) % 4294967296

/-- Subtraction of two `unsigned int` values (wraps below zero). -/
def usub (a b : Nat) : Nat := (a + (4294967296 - b % 4294967296)) % 4294967296

/-- The length of a C string: the bytes before the terminating NUL. -/
def strlen (s : List Byte) : Nat := s.length

/-- Modelled from the spec: `drw.h` is not under src/. A Color wraps an allocated
colour handle; `drw.c` reads its fields `rgb` and `xftc`. -/
structure Clr where
  rgb : Nat
  xftc : Nat
deriving DecidableEq

/-- Modelled from the spec: `drw.h` is not under src/. A Color Scheme is a
composite of foreground, background and border colour references. -/
structure ClrScheme where
  fg : Clr
  bg : Clr
  border : Clr
deriving DecidableEq

/-- Modelled from the spec: `drw.h` is not under src/. A Font holds the font
handle, ascent, descent and height (ascent + descent). -/
structure Fnt where
  ascent : Int
  descent : Int
  h : Nat
  xfont : Nat
deriving DecidableEq

/-- Modelled from the spec: `drw.h` is not under src/. Extents are the measured
width and height of a string, two `unsigned int` fields. -/
structure Extnts where
  w : Nat
  h : Nat
deriving DecidableEq

/-- Modelled from the spec: `drw.h` is not under src/. The Drawing Context:
declared width and height, display handle, screen index, root window, pixmap
handle, graphics-context handle, current scheme and current font (`none` is a
NULL pointer). -/
structure Drw where
  w : Nat
  h : Nat
  dpy : Nat
  screen : Int
  root : Nat
  drawable : Nat
  gc : Nat
  scheme : Option ClrScheme
  font : Option Fnt
deriving DecidableEq

/-- The two fields of Xrender's `XGlyphInfo` that `drw.c` reads: the horizontal
and the vertical advance (both `short`). -/
structure XGlyphInfo where
  xOff : Int
  yOff : Int
deriving DecidableEq

/-- The observable actions of `drw.c`: the Xlib/Xft calls it makes, with their
arguments (and the handle returned, for calls that create a resource), and the
stores `buf[i] = v` into the local buffer of `drw_text`. -/
inductive Event where
  | XCreatePixmap (dpy root w h depth ret : Nat)
  | XFreePixmap (dpy pixmap : Nat)
  | XCreateGC (dpy root ret : Nat)
  | XSetLineAttributes (dpy gc width : Nat)
  | XSetForeground (dpy gc rgb : Nat)
  | XFillRectangle (dpy drawable gc : Nat) (x y : Int) (w h : Nat)
  | XDrawRectangle (dpy drawable gc : Nat) (x y : Int) (w h : Nat)
  | XftTextExtentsUtf8 (dpy xfont : Nat) (text : List Byte) (len : Nat)
  | bufStore (i : Nat) (v : Byte)
  | XftDrawCreate (dpy drawable visual colormap ret : Nat)
  | XftDrawStringUtf8 (d color xfont : Nat) (tx ty : Int) (s : List (Option Byte)) (len : Nat)
  | XftDrawDestroy (d : Nat)
deriving DecidableEq

/-- The side-effect free queries of Xlib/Xft that `drw.c` calls.
`XftTextExtentsUtf8 dpy xfont text len` is the measurement function. -/
structure Xlib where
  DefaultDepth : Nat → Int → Nat
  DefaultVisual : Nat → Int → Nat
  DefaultColormap : Nat → Int → Nat
  XftTextExtentsUtf8 : Nat → Nat → List Byte → Nat → XGlyphInfo

/-- The state a call of `drw.c` runs in: the context its `Drw *` argument points
to (`none` for NULL), the calls issued so far (oldest first), the counter from
which fresh resource handles are taken, and the live pixmaps with the
dimensions they were created with. -/
structure World where
  ctx : Option Drw
  trace : List Event
  nextId : Nat
  pixmaps : List (Nat × (Nat × Nat))
deriving DecidableEq

/-- Append one call to the trace. -/
def World.emit (wd : World) (e : Event) : World :=
  { wd with trace := wd.trace ++ [e] }

/-- Xlib `XCreatePixmap`: returns a fresh non-zero handle and records the pixmap. -/
def XCreatePixmap (wd : World) (dpy root w h depth : Nat) : Nat × World :=
  (wd.nextId + 1,
   { wd with trace := wd.trace ++ [Event.XCreatePixmap dpy root w h depth (wd.nextId + 1)],
             nextId := wd.nextId + 1,
             pixmaps := (wd.nextId + 1, (w, h)) :: wd.pixmaps })

/-- Xlib `XFreePixmap`: the pixmap is no longer live. -/
def XFreePixmap (wd : World) (dpy pixmap : Nat) : World :=
  { wd with trace := wd.trace ++ [Event.XFreePixmap dpy pixmap],
            pixmaps := wd.pixmaps.filter (fun p => p.1 != pixmap) }

/-- Xlib `XCreateGC`: returns a fresh non-zero handle. -/
def XCreateGC (wd : World) (dpy root : Nat) : Nat × World :=
  (wd.nextId + 1,
   { wd with trace := wd.trace ++ [Event.XCreateGC dpy root (wd.nextId + 1)],
             nextId := wd.nextId + 1 })

/-- Xft `XftDrawCreate`: returns a fresh non-zero handle. -/
def XftDrawCreate (wd : World) (dpy drawable visual colormap : Nat) : Nat × World :=
  (wd.nextId + 1,
   { wd with trace := wd.trace ++ [Event.XftDrawCreate dpy drawable visual colormap (wd.nextId + 1)],
             nextId := wd.nextId + 1 })

/-- `drw_create` (drw.c 11-25). `callocOk` says whether `calloc` succeeded; the
zeroed struct has no font and no scheme. The new context replaces `wd.ctx`. -/
def drw_create (X : Xlib) (callocOk : Bool) (wd : World) (dpy : Nat) (screen : Int)
    (root w h : Nat) : World :=
  if callocOk then
    let r1 := XCreatePixmap wd dpy root w h (X.DefaultDepth dpy screen)
    let r2 := XCreateGC r1.2 dpy root
    let wd3 := r2.2.emit (Event.XSetLineAttributes dpy r2.1 1)
    { wd3 with ctx := some { w := w, h := h, dpy := dpy, screen := screen, root := root,
                             drawable := r1.1, gc := r2.1, scheme := none, font := none } }
  else { wd with ctx := none }

/-- `drw_resize` (drw.c 27-36). -/
def drw_resize (X : Xlib) (wd : World) (w h : Nat) : World :=
  match wd.ctx with
  | none => wd
  | some d =>
    let wd1 := if d.drawable ≠ 0 then XFreePixmap wd d.dpy d.drawable else wd
    let r := XCreatePixmap wd1 d.dpy d.root w h (X.DefaultDepth d.dpy d.screen)
    { r.2 with ctx := some { d with w := w, h := h, drawable := r.1 } }

/-- `drw_setfont` (drw.c 92-96). -/
def drw_setfont (wd : World) (font : Option Fnt) : World :=
  match wd.ctx with
  | none => wd
  | some d => { wd with ctx := some { d with font := font } }

/-- `drw_setscheme` (drw.c 98-102). -/
def drw_setscheme (wd : World) (scheme : Option ClrScheme) : World :=
  match wd.ctx, scheme with
  | some d, some s => { wd with ctx := some { d with scheme := some s } }
  | _, _ => wd

/-- `drw_rect` (drw.c 104-116). `filled`, `empty` and `invert` are C truth
values (non-zero is true); `x+1`, `y+1`, `ascent + descent + 2` and `dx + 1`
are `int` sums; `dx + 1` and `dx` are passed as `unsigned int`. -/
def drw_rect (wd : World) (x y : Int) (w h : Nat) (filled empty invert : Int) : World :=
  match wd.ctx with
  | none => wd
  | some d =>
    match d.font, d.scheme with
    | some font, some scheme =>
      let wd1 := wd.emit (Event.XSetForeground d.dpy d.gc
        (if invert ≠ 0 then scheme.bg.rgb else scheme.fg.rgb))
      let dx : Int := Int.tdiv (iadd (iadd font.ascent font.descent) 2) 4
      if filled ≠ 0 then
        wd1.emit (Event.XFillRectangle d.dpy d.drawable d.gc (iadd x 1) (iadd y 1)
          (toUInt (iadd dx 1)) (toUInt (iadd dx 1)))
      else if empty ≠ 0 then
        wd1.emit (Event.XDrawRectangle d.dpy d.drawable d.gc (iadd x 1) (iadd y 1)
          (toUInt dx) (toUInt dx))
      else wd1
    | _, _ => wd

/-- `drw_underbar` (drw.c 118-130). `y + h - dy` mixes `int` and `unsigned int`
and is computed as `unsigned int`, then passed as `int`. -/
def drw_underbar (wd : World) (x y : Int) (w h : Nat) (active : Int) : World :=
  match wd.ctx with
  | none => wd
  | some d =>
    match d.font, d.scheme with
    | some font, some scheme =>
      let wd1 := wd.emit (Event.XSetForeground d.dpy d.gc
        (if active ≠ 0 then scheme.border.rgb else scheme.fg.rgb))
      let dy : Int := Int.tdiv (iadd (iadd font.ascent font.descent) 2) 8
      wd1.emit (Event.XFillRectangle d.dpy d.drawable d.gc x
        (toInt32 (usub (uadd (toUInt y) h) (toUInt dy))) w (toUInt dy))
    | _, _ => wd

/-- `drw_font_getexts` (drw.c 173-184). `tex` is the structure the out-pointer
refers to; it is returned untouched when `drw` or `text` is NULL. The result is
`none` when the code dereferences a NULL `drw->font`. -/
def drw_font_getexts (X : Xlib) (wd : World) (text : Option (List Byte)) (len : Nat)
    (tex : Extnts) : Option (Extnts × World) :=
  match wd.ctx, text with
  | some d, some t =>
    match d.font with
    | none => none
    | some font =>
      let ext := X.XftTextExtentsUtf8 d.dpy font.xfont t len
      some ({ w := toUInt ext.xOff, h := toUInt ext.yOff },
            wd.emit (Event.XftTextExtentsUtf8 d.dpy font.xfont t len))
  | _, _ => some (tex, wd)

/-- `drw_font_getexts_width` (drw.c 186-194). `tex0` is the indeterminate
initial content of the local `tex`; `-1` is returned as `unsigned int`. -/
def drw_font_getexts_width (X : Xlib) (wd : World) (text : Option (List Byte)) (len : Nat)
    (tex0 : Extnts) : Option (Nat × World) :=
  match wd.ctx with
  | none => some (toUInt (-1), wd)
  | some _ =>
    match drw_font_getexts X wd text len tex0 with
    | none => none
    | some r => some (r.1.w, r.2)

/-- The local `char buf[256]` of `drw_text`: its cells (`none` is an
indeterminate byte) and the stores made into it, oldest first. -/
structure Buf where
  cells : List (Option Byte)
  stores : List Event
deriving DecidableEq

/-- The uninitialised 256-byte buffer. -/
def Buf.fresh : Buf := { cells := List.replicate 256 none, stores := [] }

/-- The store `buf[i] = v`. -/
def Buf.store (b : Buf) (i : Nat) (v : Byte) : Buf :=
  { cells := b.cells.set i (some v), stores := b.stores ++ [Event.bufStore i v] }

/-- `memcpy(buf, src, n)`: bytes `0 .. n-1` of the C string `src` (whose byte
at index `strlen` is the NUL) are stored in order. -/
def memcpy (buf : Buf) (src : List Byte) : Nat → Buf
  | 0 => buf
  | n + 1 => (memcpy buf src n).store n (src.getD n 0)

/-- Modelled from the spec: `util.h` is not under src/; `MIN(A, B)` is
`((A) < (B) ? (A) : (B))`. At its use `MIN(olen, sizeof buf)` the comparison is
made in `size_t` (64 bits), to which the `int` `olen` is converted. -/
def MIN_olen_sizeof_buf (olen : Int) : Int :=
  if (olen % 18446744073709551616).toNat < 256 then olen else 256

/-- The truncation loop of `drw_text` (drw.c 148-149), by recursion on `len`:
`for(...; len && (tex.w > w - tex.h || w < tex.h); len--) drw_font_getexts(drw, text, len, &tex);`
Returns the final `len`, the final `tex` and the world. -/
def drw_text_shorten (X : Xlib) (text : List Byte) (w : Nat) :
    Nat → Extnts → World → Option (Nat × Extnts × World)
  | 0, tex, wd => some (0, tex, wd)
  | len + 1, tex, wd =>
    if tex.w > usub w tex.h ∨ w < tex.h then
      match drw_font_getexts X wd (some text) (len + 1) tex with
      | none => none
      | some r => drw_text_shorten X text w len r.1 r.2
    else some (len + 1, tex, wd)

/-- The ellipsis loop of `drw_text` (drw.c 154), by recursion on `i`:
`for(i = len; i && i > len - 3; buf[--i] = '.');` with `i` and `len` of type `int`. -/
def drw_text_dots (len : Int) : Nat → Buf → Buf
  | 0, buf => buf
  | i + 1, buf =>
    if ((i + 1 : Nat) : Int) > len - 3 then drw_text_dots len i (buf.store i DOT) else buf

/-- Lines 145-149 of `drw_text`: `olen`, the first measurement and the
truncation loop. Returns `olen`, the final `len`, the final `tex` and the world. -/
def drw_text_fit (X : Xlib) (wd : World) (w : Nat) (text : List Byte) (tex0 : Extnts) :
    Option (Int × Nat × Extnts × World) :=
  let olen : Int := toInt32 (strlen text)
  match drw_font_getexts X wd (some text) (toUInt olen) tex0 with
  | none => none
  | some r =>
    match drw_text_shorten X text w (MIN_olen_sizeof_buf olen).toNat r.1 r.2 with
    | none => none
    | some s => some (olen, s)

/-- Lines 152-154 of `drw_text`: the copy into `buf` and the ellipsis. -/
def drw_text_buf (text : List Byte) (len : Nat) (olen : Int) : Buf :=
  let buf := memcpy Buf.fresh text len
  if (len : Int) < olen then drw_text_dots len len buf else buf

/-- `drw_text` (drw.c 132-162). `tex0` is the indeterminate initial content of
the local `tex`. The result is `none` only if a NULL pointer is dereferenced. -/
def drw_text (X : Xlib) (wd : World) (x y : Int) (w h : Nat) (text : Option (List Byte))
    (tex0 : Extnts) : Option World :=
  match wd.ctx with
  | none => some wd
  | some d =>
    match d.scheme with
    | none => some wd
    | some scheme =>
      let wd1 := wd.emit (Event.XSetForeground d.dpy d.gc scheme.bg.rgb)
      let wd2 := wd1.emit (Event.XFillRectangle d.dpy d.drawable d.gc x y w h)
      match text, d.font with
      | some t, some font =>
        match drw_text_fit X wd2 w t tex0 with
        | none => none
        | some (olen, len, tex, wd4) =>
          if len = 0 then some wd4
          else
            let buf := drw_text_buf t len olen
            let wd5 : World := { wd4 with trace := wd4.trace ++ buf.stores }
            let th : Int := iadd font.ascent font.descent
            let ty : Int := toInt32 (uadd (usub (uadd (toUInt y) (h / 2)) (toUInt (Int.tdiv th 2)))
              (toUInt font.ascent))
            let tx : Int := toInt32 (usub (uadd (toUInt x) (w / 2)) (tex.w / 2))
            let r := XftDrawCreate wd5 d.dpy d.drawable (X.DefaultVisual d.dpy d.screen)
              (X.DefaultColormap d.dpy d.screen)
            let wd7 := r.2.emit (Event.XftDrawStringUtf8 r.1 scheme.fg.xftc font.xfont tx ty
              (buf.cells.take len) len)
            some (wd7.emit (Event.XftDrawDestroy r.1))
      | _, _ => some wd2

/-- What a drawing call puts on a surface. -/
inductive Paint where
  | fill (drawable : Nat) (x y : Int) (w h : Nat) (rgb : Nat)
  | outline (drawable : Nat) (x y : Int) (w h : Nat) (rgb : Nat)
  | text (d color : Nat) (tx ty : Int) (s : List (Option Byte))
deriving DecidableEq

/-- The drawing commands of a trace, each rectangle with the foreground its
graphics context holds when it is issued. `fg` maps graphics contexts to their
current foreground (most recent first; 0 when never set). -/
def paints : List (Nat × Nat) → List Event → List Paint
  | _, [] => []
  | fg, Event.XSetForeground _ gc rgb :: es => paints ((gc, rgb) :: fg) es
  | fg, Event.XFillRectangle _ dr gc x y w h :: es =>
    Paint.fill dr x y w h ((fg.lookup gc).getD 0) :: paints fg es
  | fg, Event.XDrawRectangle _ dr gc x y w h :: es =>
    Paint.outline dr x y w h ((fg.lookup gc).getD 0) :: paints fg es
  | fg, Event.XftDrawStringUtf8 d color _ tx ty s _ :: es =>
    Paint.text d color tx ty s :: paints fg es
  | fg, _ :: es => paints fg es

/-- The fit test of `drw_text`: the negation of the loop condition
`tex.w > w - tex.h || w < tex.h` (in `unsigned int` arithmetic). -/
def fits (w : Nat) (tex : Extnts) : Prop := ¬ (tex.w > usub w tex.h ∨ w < tex.h)

instance (w : Nat) (tex : Extnts) : Decidable (fits w tex) := by
  unfold fits; infer_instance

/-- The extents `drw_font_getexts` stores for the first `n` units of `text`
under context `d` and font `font`. -/
def measured (X : Xlib) (d : Drw) (font : Fnt) (text : List Byte) (n : Nat) : Extnts :=
  { w := toUInt (X.XftTextExtentsUtf8 d.dpy font.xfont text n).xOff,
    h := toUInt (X.XftTextExtentsUtf8 d.dpy font.xfont text n).yOff }

/-- The value `len` starts from: `MIN(olen, sizeof buf)` for a string of `n` units. -/
def startLen (n : Nat) : Nat := (MIN_olen_sizeof_buf (toInt32 (n : Int))).toNat

/-- The measurement calls of the truncation loop when it takes `len` from `L`
down to `len`: one call per iteration, at the lengths `L, L-1, ..., len+1`. -/
def loopCalls (d : Drw) (font : Fnt) (text : List Byte) (L len : Nat) : List Event :=
  (List.range (L - len)).map (fun j => Event.XftTextExtentsUtf8 d.dpy font.xfont text (L - j))

/-- The calls `drw_text` issues before the truncation loop, on a context with
scheme and font set and a non-NULL string. -/
def preCalls (d : Drw) (scheme : ClrScheme) (font : Fnt) (x y : Int) (w h : Nat)
    (text : List Byte) : List Event :=
  [Event.XSetForeground d.dpy d.gc scheme.bg.rgb,
   Event.XFillRectangle d.dpy d.drawable d.gc x y w h,
   Event.XftTextExtentsUtf8 d.dpy font.xfont text (toUInt (toInt32 (strlen text : Nat)))]

/-- The calls `drw_text` issues after the truncation loop when it ends with a
non-zero `len` and extents `tex`: the stores into `buf`, then the Xft calls that
render the first `len` bytes of `buf`; `dh` is the handle `XftDrawCreate` returns. -/
def renderCalls (X : Xlib) (d : Drw) (scheme : ClrScheme) (font : Fnt) (x y : Int) (w h : Nat)
    (text : List Byte) (len : Nat) (tex : Extnts) (dh : Nat) : List Event :=
  (drw_text_buf text len (toInt32 (strlen text : Nat))).stores ++
  [Event.XftDrawCreate d.dpy d.drawable (X.DefaultVisual d.dpy d.screen)
     (X.DefaultColormap d.dpy d.screen) dh,
   Event.XftDrawStringUtf8 dh scheme.fg.xftc font.xfont
     (toInt32 (usub (uadd (toUInt x) (w / 2)) (tex.w / 2)))
     (toInt32 (uadd (usub (uadd (toUInt y) (h / 2))
       (toUInt (Int.tdiv (iadd font.ascent font.descent) 2))) (toUInt font.ascent)))
     ((drw_text_buf text len (toInt32 (strlen text : Nat))).cells.take len) len,
   Event.XftDrawDestroy dh]

/-- The size invariant of the Drawing Context: the pixmap the context holds is
live and was created with the declared width and height of the context. -/
def sizeMatches (wd : World) : Prop :=
  ∀ d, wd.ctx = some d → wd.pixmaps.lookup d.drawable = some (d.w, d.h)

/-- A run of `drw_resize` calls, one per pair `(w, h)`, in order. -/
def resizes (X : Xlib) (wd : World) (sizes : List (Nat × Nat)) : World :=
  sizes.foldl (fun wd1 p => drw_resize X wd1 p.1 p.2) wd

/-- The side parameter of `drw_rect` (drw.c 111):
`dx = (drw->font->ascent + drw->font->descent + 2) / 4` in `int` arithmetic. -/
def rectDx (font : Fnt) : Int := Int.tdiv (iadd (iadd font.ascent font.descent) 2) 4

/-- A value of type `int`. -/
def isInt (i : Int) : Prop := -2147483648 ≤ i ∧ i ≤ 2147483647

instance (i : Int) : Decidable (isInt i) := by
  unfold isInt; infer_instance

/-! ## Sample data -/

/-- A measurement: every unit is 10 wide, the vertical advance is `yoff`. -/
def sampleX (yoff : Int) : Xlib :=
  { DefaultDepth := fun _ _ => 24
    DefaultVisual := fun _ _ => 7
    DefaultColormap := fun _ _ => 8
    XftTextExtentsUtf8 := fun _ _ _ len => { xOff := 10 * len, yOff := yoff } }

/-- A font with the given ascent and descent. -/
def sampleFont (ascent descent : Int) : Fnt :=
  { ascent := ascent, descent := descent, h := toUInt (ascent + descent), xfont := 5 }

/-- A colour scheme with three distinct colours. -/
def sampleScheme : ClrScheme :=
  { fg := { rgb := 1, xftc := 11 }, bg := { rgb := 2, xftc := 12 }, border := { rgb := 3, xftc := 13 } }

/-- An 800 by 20 context on pixmap 3 with the given font and scheme. -/
def sampleDrw (font : Option Fnt) (scheme : Option ClrScheme) : Drw :=
  { w := 800, h := 20, dpy := 1, screen := 0, root := 2, drawable := 3, gc := 4,
    scheme := scheme, font := font }

/-- A world with an empty trace in which pixmap 3 is live. -/
def sampleWorld (ctx : Option Drw) : World :=
  { ctx := ctx, trace := [], nextId := 10, pixmaps := [(3, (800, 20))] }

/-- The sample context with a font of height 14 (ascent 10, descent 4) and the
sample scheme. -/
def sampleCtx : Drw := sampleDrw (some (sampleFont 10 4)) (some sampleScheme)

/-- The string "abcde". -/
def abcde : List Byte := [97, 98, 99, 100, 101]

/-- The string "abcd". -/
def abcd : List Byte := [97, 98, 99, 100]

/-- A measurement that reports every string as 0 wide and 0 high. -/
def flatX : Xlib :=
  { DefaultDepth := fun _ _ => 24
    DefaultVisual := fun _ _ => 7
    DefaultColormap := fun _ _ => 8
    XftTextExtentsUtf8 := fun _ _ _ _ => { xOff := 0, yOff := 0 } }

/-- A string of 2^31 bytes 'a': its length does not fit in an `int`. -/
def longText : List Byte := List.replicate 2147483648 97

/-- A string of 2^32 + 5 bytes 'a': its length converted to `int` is 5. -/
def longerText : List Byte := List.replicate 4294967301 97

/-- The world in which the body of `drw_text` runs its measurements: `wd` after
the background fill of the box `(x, y, w, h)`. -/
def afterFill (wd : World) (d : Drw) (scheme : ClrScheme) (x y : Int) (w h : Nat) : World :=
  (wd.emit (Event.XSetForeground d.dpy d.gc scheme.bg.rgb)).emit
    (Event.XFillRectangle d.dpy d.drawable d.gc x y w h)

/-- The calls of `drw_text(0, 0, 50, 20, "abcde")` on the sample context when
every unit is 10 wide and the reported height is the font height 14. -/
def sampleTruncCalls : List Event :=
  [Event.XSetForeground 1 4 2,
   Event.XFillRectangle 1 3 4 0 0 50 20,
   Event.XftTextExtentsUtf8 1 5 abcde 5,
   Event.XftTextExtentsUtf8 1 5 abcde 5,
   Event.XftTextExtentsUtf8 1 5 abcde 4,
   Event.XftTextExtentsUtf8 1 5 abcde 3,
   Event.bufStore 0 97,
   Event.bufStore 1 98,
   Event.bufStore 1 46,
   Event.bufStore 0 46,
   Event.XftDrawCreate 1 3 7 8 11,
   Event.XftDrawStringUtf8 11 11 5 10 13 [some 46, some 46] 2,
   Event.XftDrawDestroy 11]

/-- The world after that call. -/
def sampleTruncWorld : World :=
  { ctx := some sampleCtx, trace := sampleTruncCalls, nextId := 11, pixmaps := [(3, (800, 20))] }

/-! ## Machine arithmetic -/

theorem toInt32_natCast (n : Nat) (h : n < 2147483648) : toInt32 (n : Int) = (n : Int) := by
  unfold toInt32; split <;> omega

theorem toUInt_natCast (n : Nat) (h : n < 4294967296) : toUInt (n : Int) = n := by
  unfold toUInt; omega

theorem startLen_le (n : Nat) : startLen n ≤ min n 256 := by
  unfold startLen MIN_olen_sizeof_buf toInt32
  split <;> split <;> omega

theorem startLen_eq (n : Nat) (h : n < 2147483648) : startLen n = min n 256 := by
  unfold startLen MIN_olen_sizeof_buf toInt32
  split <;> split <;> omega

theorem fits_bound (w : Nat) (tex : Extnts) (h : fits w tex) :
    tex.h ≤ w ∧ tex.w ≤ w - tex.h := by
  unfold fits usub at h; omega

/-! ## The measurement and the truncation loop -/

theorem drw_font_getexts_set (X : Xlib) (wd : World) (d : Drw) (font : Fnt) (t : List Byte)
    (n : Nat) (tex : Extnts) (hc : wd.ctx = some d) (hf : d.font = some font) :
    drw_font_getexts X wd (some t) n tex
      = some (measured X d font t n, wd.emit (Event.XftTextExtentsUtf8 d.dpy font.xfont t n)) := by
  simp [drw_font_getexts, hc, hf, measured]

theorem loopCalls_succ (d : Drw) (font : Fnt) (t : List Byte) (L len : Nat) (h : len ≤ L) :
    loopCalls d font t (L + 1) len
      = Event.XftTextExtentsUtf8 d.dpy font.xfont t (L + 1) :: loopCalls d font t L len := by
  unfold loopCalls
  have e : L + 1 - len = (L - len) + 1 := by omega
  rw [e, List.range_succ_eq_map]
  simp [List.map_map, Function.comp_def]

theorem loopCalls_length (d : Drw) (font : Fnt) (t : List Byte) (L len : Nat) :
    (loopCalls d font t L len).length = L - len := by
  simp [loopCalls]

theorem mem_loopCalls (d : Drw) (font : Fnt) (t : List Byte) (L len : Nat) (e : Event) :
    e ∈ loopCalls d font t L len
      ↔ ∃ n, len < n ∧ n ≤ L ∧ e = Event.XftTextExtentsUtf8 d.dpy font.xfont t n := by
  unfold loopCalls
  simp only [List.mem_map, List.mem_range]
  constructor
  · rintro ⟨j, hj, rfl⟩
    exact ⟨L - j, by omega, by omega, rfl⟩
  · rintro ⟨n, h1, h2, rfl⟩
    exact ⟨L - n, by omega, by congr 1; omega⟩

/-- The truncation loop on a context with a font: it returns, having measured
once per iteration at the lengths `L, ..., len+1`; the extents it ends with are
the initial ones when no iteration ran and those of the prefix of length
`len + 1` otherwise; every extents tested before the last failed the fit test,
and the last passed it unless `len` reached zero. -/
theorem drw_text_shorten_spec (X : Xlib) (d : Drw) (font : Fnt) (t : List Byte) (w : Nat)
    (hf : d.font = some font) :
    ∀ (L : Nat) (tex : Extnts) (wd : World), wd.ctx = some d →
      ∃ len tex1,
        drw_text_shorten X t w L tex wd
          = some (len, tex1, { wd with trace := wd.trace ++ loopCalls d font t L len })
        ∧ len ≤ L
        ∧ (len = L → tex1 = tex)
        ∧ (len < L → ¬ fits w tex ∧ tex1 = measured X d font t (len + 1)
              ∧ ∀ n, len + 1 < n → n ≤ L → ¬ fits w (measured X d font t n))
        ∧ (0 < len → fits w tex1) := by
  intro L
  induction L with
  | zero =>
    intro tex wd _
    exact ⟨0, tex, by simp [drw_text_shorten, loopCalls], le_refl _, fun _ => rfl,
      fun h => absurd h (by omega), fun h => absurd h (by omega)⟩
  | succ L ih =>
    intro tex wd hc
    by_cases hfit : fits w tex
    · refine ⟨L + 1, tex, ?_, le_refl _, fun _ => rfl, fun h => absurd h (by omega), fun _ => hfit⟩
      have hfit2 := hfit
      unfold fits at hfit2
      simp [drw_text_shorten, hfit2, loopCalls]
    · have hc1 : (wd.emit (Event.XftTextExtentsUtf8 d.dpy font.xfont t (L + 1))).ctx = some d := by
        simpa [World.emit] using hc
      obtain ⟨len, tex1, heq, hle, h1, h2, h3⟩ :=
        ih (measured X d font t (L + 1)) _ hc1
      refine ⟨len, tex1, ?_, by omega, fun h => absurd h (by omega), ?_, h3⟩
      · have hfit2 : tex.w > usub w tex.h ∨ w < tex.h := by
          unfold fits at hfit; exact not_not.mp hfit
        rw [drw_text_shorten, if_pos hfit2, drw_font_getexts_set X wd d font t (L + 1) tex hc hf]
        simp only [heq, loopCalls_succ d font t L len hle]
        simp [World.emit]
      · intro _
        refine ⟨hfit, ?_, ?_⟩
        · rcases Nat.lt_or_eq_of_le hle with hlt | heq2
          · exact (h2 hlt).2.1
          · subst heq2; exact h1 rfl
        · intro n hn1 hn2
          rcases Nat.lt_or_eq_of_le hn2 with hlt | heq2
          · exact (h2 (by omega)).2.2 n hn1 (by omega)
          · subst heq2
            rcases Nat.lt_or_eq_of_le hle with hlt | heq3
            · exact (h2 hlt).1
            · omega

theorem drw_text_fit_aux (X : Xlib) (d : Drw) (font : Fnt) (t : List Byte) (w : Nat)
    (wd : World) (tex0 : Extnts) (olen : Int) (olenU L : Nat)
    (hc : wd.ctx = some d) (hf : d.font = some font) :
    ∃ len tex,
      (match drw_font_getexts X wd (some t) olenU tex0 with
        | none => none
        | some r =>
          match drw_text_shorten X t w L r.1 r.2 with
          | none => none
          | some s => some (olen, s))
        = some (olen, len, tex,
            { wd with trace := wd.trace
                ++ Event.XftTextExtentsUtf8 d.dpy font.xfont t olenU :: loopCalls d font t L len })
      ∧ len ≤ L
      ∧ (len = L → tex = measured X d font t olenU)
      ∧ (len < L → ¬ fits w (measured X d font t olenU)
              ∧ tex = measured X d font t (len + 1)
              ∧ ∀ n, len + 1 < n → n ≤ L → ¬ fits w (measured X d font t n))
      ∧ (0 < len → fits w tex) := by
  have hc1 : (wd.emit (Event.XftTextExtentsUtf8 d.dpy font.xfont t olenU)).ctx = some d := hc
  obtain ⟨len, tex, heq, hle, h1, h2, h3⟩ :=
    drw_text_shorten_spec X d font t w hf L (measured X d font t olenU) _ hc1
  refine ⟨len, tex, ?_, hle, h1, h2, h3⟩
  rw [drw_font_getexts_set X wd d font t _ tex0 hc hf]
  simp only [heq]
  simp only [World.emit, List.append_assoc, List.singleton_append]

theorem drw_text_fit_spec (X : Xlib) (d : Drw) (font : Fnt) (t : List Byte) (w : Nat)
    (wd : World) (tex0 : Extnts) (hc : wd.ctx = some d) (hf : d.font = some font) :
    ∃ len tex,
      drw_text_fit X wd w t tex0
        = some (toInt32 (strlen t : Nat), len, tex,
            { wd with trace := wd.trace
                ++ Event.XftTextExtentsUtf8 d.dpy font.xfont t (toUInt (toInt32 (strlen t : Nat)))
                  :: loopCalls d font t (startLen (strlen t)) len })
      ∧ len ≤ startLen (strlen t)
      ∧ (len = startLen (strlen t)
            → tex = measured X d font t (toUInt (toInt32 (strlen t : Nat))))
      ∧ (len < startLen (strlen t)
            → ¬ fits w (measured X d font t (toUInt (toInt32 (strlen t : Nat))))
              ∧ tex = measured X d font t (len + 1)
              ∧ ∀ n, len + 1 < n → n ≤ startLen (strlen t) → ¬ fits w (measured X d font t n))
      ∧ (0 < len → fits w tex) := by
  unfold drw_text_fit startLen
  simp only []
  have h := drw_text_fit_aux X d font t w wd tex0 (toInt32 (strlen t : Nat))
    (toUInt (toInt32 (strlen t : Nat))) (MIN_olen_sizeof_buf (toInt32 (strlen t : Nat))).toNat hc hf
  exact h

/-! ## The truncation buffer -/

theorem memcpy_cells (buf : Buf) (src : List Byte) :
    ∀ n, n ≤ src.length → n ≤ buf.cells.length →
      (memcpy buf src n).cells = (src.take n).map some ++ buf.cells.drop n := by
  intro n
  induction n with
  | zero => intro _ _; simp [memcpy]
  | succ n ih =>
    intro h1 h2
    have hn : n < src.length := by omega
    rw [memcpy, Buf.store, ih (by omega) (by omega)]
    simp only
    rw [List.set_append]
    have hlen : ((List.take n src).map some).length = n := by simp; omega
    rw [hlen, if_neg (by omega), Nat.sub_self]
    rw [List.take_succ, List.map_append]
    have hd : List.drop n buf.cells = buf.cells[n] :: List.drop (n + 1) buf.cells := by
      rw [List.drop_eq_getElem_cons]
    rw [hd, List.set_cons_zero]
    simp [List.getD, List.getElem?_eq_getElem hn]

theorem memcpy_stores (buf : Buf) (src : List Byte) (n : Nat) (e : Event)
    (h : e ∈ (memcpy buf src n).stores) :
    e ∈ buf.stores ∨ ∃ i v, i < n ∧ e = Event.bufStore i v := by
  induction n with
  | zero => left; simpa [memcpy] using h
  | succ n ih =>
    rw [memcpy, Buf.store] at h
    simp only [List.mem_append, List.mem_singleton] at h
    rcases h with h | h
    · rcases ih h with h | ⟨i, v, hi, he⟩
      · left; exact h
      · right; exact ⟨i, v, by omega, he⟩
    · right; exact ⟨n, _, by omega, h⟩

theorem memcpy_length (buf : Buf) (src : List Byte) (n : Nat) :
    (memcpy buf src n).cells.length = buf.cells.length := by
  induction n with
  | zero => simp [memcpy]
  | succ n ih => simp [memcpy, Buf.store, ih]

theorem drw_text_dots_stores (len : Int) (i : Nat) (buf : Buf) (e : Event)
    (h : e ∈ (drw_text_dots len i buf).stores) :
    e ∈ buf.stores ∨ ∃ j, j < i ∧ e = Event.bufStore j DOT := by
  induction i generalizing buf with
  | zero => left; simpa [drw_text_dots] using h
  | succ i ih =>
    rw [drw_text_dots] at h
    split at h
    · rcases ih _ h with h | ⟨j, hj, he⟩
      · simp only [Buf.store, List.mem_append, List.mem_singleton] at h
        rcases h with h | h
        · left; exact h
        · right; exact ⟨i, by omega, h⟩
      · right; exact ⟨j, by omega, he⟩
    · left; exact h

theorem take_set_le {α : Type} (l : List α) (a : α) (m n : Nat) (h : m ≤ n) :
    (l.set n a).take m = l.take m := by
  apply List.ext_getElem?
  intro j
  rw [List.getElem?_take, List.getElem?_take]
  split
  · rw [List.getElem?_set_ne (by omega)]
  · rfl

theorem drop_set_self {α : Type} (l : List α) (a : α) (n : Nat) (h : n < l.length) :
    (l.set n a).drop n = a :: l.drop (n + 1) := by
  rw [List.drop_set, if_neg (by omega), Nat.sub_self, List.drop_eq_getElem_cons h,
    List.set_cons_zero]

theorem drw_text_dots_cells (len : Nat) :
    ∀ (i : Nat) (buf : Buf), len - 3 ≤ i → i ≤ len → len ≤ buf.cells.length →
      (drw_text_dots (len : Int) i buf).cells
        = buf.cells.take (len - 3) ++ List.replicate (i - (len - 3)) (some DOT)
            ++ buf.cells.drop i := by
  intro i
  induction i with
  | zero =>
    intro buf h1 _ _
    have : len - 3 = 0 := by omega
    simp [drw_text_dots, this]
  | succ i ih =>
    intro buf h1 h2 h3
    rw [drw_text_dots]
    by_cases hc : ((i + 1 : Nat) : Int) > (len : Int) - 3
    · rw [if_pos hc]
      have hi : len - 3 ≤ i := by omega
      rw [ih (buf.store i DOT) hi (by omega) (by simpa [Buf.store] using h3)]
      simp only [Buf.store]
      have e1 : i + 1 - (len - 3) = (i - (len - 3)) + 1 := by omega
      rw [e1, List.replicate_succ', take_set_le _ _ _ _ hi, drop_set_self _ _ _ (by omega)]
      simp
    · rw [if_neg hc]
      have e1 : i + 1 = len - 3 := by omega
      simp [e1]

theorem Buf_fresh_length : Buf.fresh.cells.length = 256 :=
  List.length_replicate 256 none

theorem drw_text_buf_cells_full (t : List Byte) (len : Nat) (olen : Int)
    (h1 : len ≤ t.length) (h2 : len ≤ 256) (h : ¬ (len : Int) < olen) :
    (drw_text_buf t len olen).cells.take len = (t.take len).map some := by
  unfold drw_text_buf
  simp only [if_neg h]
  rw [memcpy_cells Buf.fresh t len h1 (by rw [Buf_fresh_length]; exact h2)]
  apply List.take_left'
  simp [List.length_take]; omega

theorem drw_text_buf_cells_trunc (t : List Byte) (len : Nat) (olen : Int)
    (h1 : len ≤ t.length) (h2 : len ≤ 256) (h : (len : Int) < olen) :
    (drw_text_buf t len olen).cells.take len
      = (t.take (len - 3)).map some ++ List.replicate (len - (len - 3)) (some DOT) := by
  unfold drw_text_buf
  simp only [if_pos h]
  have hl : len ≤ (memcpy Buf.fresh t len).cells.length := by
    rw [memcpy_length, Buf_fresh_length]; exact h2
  rw [drw_text_dots_cells len len (memcpy Buf.fresh t len) (by omega) (le_refl _) hl]
  rw [memcpy_cells Buf.fresh t len h1 (by rw [Buf_fresh_length]; exact h2)]
  have hA : List.take (len - 3) (List.map some (List.take len t) ++ List.drop len Buf.fresh.cells)
      = (t.take (len - 3)).map some := by
    rw [List.take_append_of_le_length (by simp [List.length_take]; omega)]
    rw [← List.map_take, List.take_take]
    congr 2
    omega
  rw [hA]
  apply List.take_left'
  simp [List.length_take]; omega

theorem drw_text_buf_stores (t : List Byte) (len : Nat) (olen : Int) (e : Event)
    (h : e ∈ (drw_text_buf t len olen).stores) : ∃ i v, i < len ∧ e = Event.bufStore i v := by
  unfold drw_text_buf at h
  simp only at h
  have hm : ∀ e, e ∈ (memcpy Buf.fresh t len).stores → ∃ i v, i < len ∧ e = Event.bufStore i v := by
    intro e he
    rcases memcpy_stores Buf.fresh t len e he with h0 | h0
    · exact absurd h0 (List.not_mem_nil e)
    · exact h0
  split at h
  · rcases drw_text_dots_stores _ _ _ e h with h0 | ⟨j, hj, he⟩
    · exact hm e h0
    · exact ⟨j, DOT, hj, he⟩
  · exact hm e h

/-! ## drw_text on a context with scheme and font set -/

/-- The shape of every `drw_text` call on a context with scheme and font set and
a non-NULL string: the truncation loop returns a length `len` and extents
`tex`, and the trace of the call is the fill, the first measurement, the
measurements of the loop and, unless `len` reached zero, the stores into `buf`
and the rendering calls. -/
theorem drw_text_set_fit (X : Xlib) (wd : World) (d : Drw) (scheme : ClrScheme) (font : Fnt)
    (x y : Int) (w h : Nat) (t : List Byte) (tex0 : Extnts)
    (hc : wd.ctx = some d) (hs : d.scheme = some scheme) (hf : d.font = some font) :
    ∃ len tex,
      len ≤ startLen (strlen t)
      ∧ (len = startLen (strlen t)
            → tex = measured X d font t (toUInt (toInt32 (strlen t : Nat))))
      ∧ (len < startLen (strlen t)
            → ¬ fits w (measured X d font t (toUInt (toInt32 (strlen t : Nat))))
              ∧ tex = measured X d font t (len + 1)
              ∧ ∀ n, len + 1 < n → n ≤ startLen (strlen t) → ¬ fits w (measured X d font t n))
      ∧ (0 < len → fits w tex)
      ∧ drw_text X wd x y w h (some t) tex0
          = some (if len = 0 then
              { wd with trace := wd.trace ++ (preCalls d scheme font x y w h t
                  ++ loopCalls d font t (startLen (strlen t)) len) }
            else
              { wd with
                  nextId := wd.nextId + 1
                  trace := wd.trace ++ (preCalls d scheme font x y w h t
                    ++ loopCalls d font t (startLen (strlen t)) len
                    ++ renderCalls X d scheme font x y w h t len tex (wd.nextId + 1)) })
      ∧ drw_text_fit X ((wd.emit (Event.XSetForeground d.dpy d.gc scheme.bg.rgb)).emit
            (Event.XFillRectangle d.dpy d.drawable d.gc x y w h)) w t tex0
          = some (toInt32 (strlen t : Nat), len, tex,
              { wd with trace := wd.trace ++ (preCalls d scheme font x y w h t
                  ++ loopCalls d font t (startLen (strlen t)) len) }) := by
  have hc2 : ((wd.emit (Event.XSetForeground d.dpy d.gc scheme.bg.rgb)).emit
      (Event.XFillRectangle d.dpy d.drawable d.gc x y w h)).ctx = some d := hc
  obtain ⟨len, tex, heq, hle, h1, h2, h3⟩ := drw_text_fit_spec X d font t w _ tex0 hc2 hf
  refine ⟨len, tex, hle, h1, h2, h3, ?_, ?_⟩
  · unfold drw_text
    rw [hc]
    simp only []
    rw [hs]
    simp only []
    rw [hf]
    simp only []
    rw [heq]
    simp only []
    by_cases h0 : len = 0
    · simp [h0, World.emit, preCalls, hc]
    · simp [h0, World.emit, preCalls, renderCalls, XftDrawCreate, hc]
  · rw [heq]
    simp [World.emit, preCalls]

theorem drw_text_set (X : Xlib) (wd : World) (d : Drw) (scheme : ClrScheme) (font : Fnt)
    (x y : Int) (w h : Nat) (t : List Byte) (tex0 : Extnts)
    (hc : wd.ctx = some d) (hs : d.scheme = some scheme) (hf : d.font = some font) :
    ∃ len tex,
      len ≤ startLen (strlen t)
      ∧ (len = startLen (strlen t)
            → tex = measured X d font t (toUInt (toInt32 (strlen t : Nat))))
      ∧ (len < startLen (strlen t)
            → ¬ fits w (measured X d font t (toUInt (toInt32 (strlen t : Nat))))
              ∧ tex = measured X d font t (len + 1)
              ∧ ∀ n, len + 1 < n → n ≤ startLen (strlen t) → ¬ fits w (measured X d font t n))
      ∧ (0 < len → fits w tex)
      ∧ drw_text X wd x y w h (some t) tex0
          = some (if len = 0 then
              { wd with trace := wd.trace ++ (preCalls d scheme font x y w h t
                  ++ loopCalls d font t (startLen (strlen t)) len) }
            else
              { wd with
                  nextId := wd.nextId + 1
                  trace := wd.trace ++ (preCalls d scheme font x y w h t
                    ++ loopCalls d font t (startLen (strlen t)) len
                    ++ renderCalls X d scheme font x y w h t len tex (wd.nextId + 1)) }) := by
  obtain ⟨len, tex, hle, h1, h2, h3, heq, _⟩ :=
    drw_text_set_fit X wd d scheme font x y w h t tex0 hc hs hf
  exact ⟨len, tex, hle, h1, h2, h3, heq⟩

theorem drw_text_null (X : Xlib) (wd : World) (x y : Int) (w h : Nat)
    (text : Option (List Byte)) (tex0 : Extnts)
    (hn : wd.ctx = none ∨ ∃ d, wd.ctx = some d ∧ d.scheme = none) :
    drw_text X wd x y w h text tex0 = some wd := by
  unfold drw_text
  rcases hn with hn | ⟨d, hc, hs⟩
  · rw [hn]
  · rw [hc]; simp only []; rw [hs]

theorem drw_text_blank (X : Xlib) (wd : World) (d : Drw) (scheme : ClrScheme) (x y : Int)
    (w h : Nat) (text : Option (List Byte)) (tex0 : Extnts)
    (hc : wd.ctx = some d) (hs : d.scheme = some scheme)
    (hb : text = none ∨ d.font = none) :
    drw_text X wd x y w h text tex0
      = some { wd with trace := wd.trace ++ [Event.XSetForeground d.dpy d.gc scheme.bg.rgb,
          Event.XFillRectangle d.dpy d.drawable d.gc x y w h] } := by
  unfold drw_text
  rw [hc]; simp only []; rw [hs]; simp only []
  rcases hb with hb | hb
  · subst hb
    simp [World.emit, hc]
  · rw [hb]
    cases text <;> simp [World.emit, hc]

theorem paints_map_measure (a b : Nat) (t : List Byte) (f : Nat → Nat) (l : List Nat)
    (fg : List (Nat × Nat)) :
    paints fg (l.map (fun j => Event.XftTextExtentsUtf8 a b t (f j))) = [] := by
  induction l with
  | nil => simp [paints]
  | cons j l ih => simp [paints, ih]

theorem paints_loopCalls (d : Drw) (font : Fnt) (t : List Byte) (L len : Nat)
    (fg : List (Nat × Nat)) : paints fg (loopCalls d font t L len) = [] := by
  unfold loopCalls
  exact paints_map_measure d.dpy font.xfont t (fun j => L - j) _ fg

theorem paints_blank (d : Drw) (scheme : ClrScheme) (font : Fnt) (x y : Int) (w h : Nat)
    (t : List Byte) (L len : Nat) (fg : List (Nat × Nat)) :
    paints fg (preCalls d scheme font x y w h t ++ loopCalls d font t L len)
      = [Paint.fill d.drawable x y w h scheme.bg.rgb] := by
  simp [preCalls, paints, paints_loopCalls, List.lookup]

/-- Every rendering call in the trace of a `drw_text` call on a context with
scheme and font set is the one issued after the truncation loop: its length is
the non-zero `len` of the loop, its bytes are the first `len` cells of `buf`,
and its `tx` is computed from the extents the loop ended with. -/
theorem drw_text_render (X : Xlib) (wd wd1 : World) (d : Drw) (scheme : ClrScheme) (font : Fnt)
    (x y : Int) (w h : Nat) (t : List Byte) (tex0 : Extnts) (new : List Event)
    (hc : wd.ctx = some d) (hs : d.scheme = some scheme) (hf : d.font = some font)
    (hr : drw_text X wd x y w h (some t) tex0 = some wd1)
    (hn : wd1.trace = wd.trace ++ new)
    (dh c f : Nat) (tx ty : Int) (s : List (Option Byte)) (len : Nat)
    (hm : Event.XftDrawStringUtf8 dh c f tx ty s len ∈ new) :
    0 < len ∧ len ≤ startLen (strlen t)
    ∧ s = (drw_text_buf t len (toInt32 (strlen t : Nat))).cells.take len
    ∧ ∃ tex, fits w tex
        ∧ tx = toInt32 (usub (uadd (toUInt x) (w / 2)) (tex.w / 2))
        ∧ (len = startLen (strlen t)
              → tex = measured X d font t (toUInt (toInt32 (strlen t : Nat))))
        ∧ (len < startLen (strlen t)
              → ¬ fits w (measured X d font t (toUInt (toInt32 (strlen t : Nat))))
                ∧ tex = measured X d font t (len + 1)
                ∧ ∀ n, len + 1 < n → n ≤ startLen (strlen t)
                    → ¬ fits w (measured X d font t n)) := by
  obtain ⟨len0, tex, hle, h1, h2, h3, heq⟩ :=
    drw_text_set X wd d scheme font x y w h t tex0 hc hs hf
  rw [heq] at hr
  have hw := Option.some.inj hr
  by_cases h0 : len0 = 0
  · rw [if_pos h0] at hw
    rw [← hw] at hn
    have hnew := List.append_cancel_left hn
    rw [← hnew] at hm
    simp [preCalls, mem_loopCalls] at hm
  · rw [if_neg h0] at hw
    rw [← hw] at hn
    have hnew := List.append_cancel_left hn
    rw [← hnew] at hm
    simp only [List.mem_append] at hm
    rcases hm with (hm | hm) | hm
    · simp [preCalls] at hm
    · simp [mem_loopCalls] at hm
    · unfold renderCalls at hm
      simp only [List.mem_append] at hm
      rcases hm with hm | hm
      · obtain ⟨i, v, _, he⟩ := drw_text_buf_stores _ _ _ _ hm
        cases he
      · simp at hm
        obtain ⟨_, _, _, htx, _, hs2, hl⟩ := hm
        subst hl
        exact ⟨by omega, hle, hs2, tex, h3 (by omega), htx, h1, h2⟩

/-! ## The claims -/

/-- C5: on a non-NULL context with a scheme set, `drw_text` called with a NULL
string, an empty string, or with no font set returns, and the calls it issues
draw exactly one thing on the surface: a filled rectangle `(x, y, w, h)` in the
background colour of the scheme; no text is rendered. -/
theorem C5_drw_text_blank_box (X : Xlib) (wd : World) (d : Drw) (scheme : ClrScheme)
    (x y : Int) (w h : Nat) (text : Option (List Byte)) (tex0 : Extnts)
    (hc : wd.ctx = some d) (hs : d.scheme = some scheme)
    (hb : text = none ∨ text = some [] ∨ d.font = none) :
    ∃ wd1 new, drw_text X wd x y w h text tex0 = some wd1
      ∧ wd1.trace = wd.trace ++ new
      ∧ (∀ fg, paints fg new = [Paint.fill d.drawable x y w h scheme.bg.rgb])
      ∧ ∀ dh c f tx ty s len, Event.XftDrawStringUtf8 dh c f tx ty s len ∉ new := by
  have blank : text = none ∨ d.font = none →
      ∃ wd1 new, drw_text X wd x y w h text tex0 = some wd1
        ∧ wd1.trace = wd.trace ++ new
        ∧ (∀ fg, paints fg new = [Paint.fill d.drawable x y w h scheme.bg.rgb])
        ∧ ∀ dh c f tx ty s len, Event.XftDrawStringUtf8 dh c f tx ty s len ∉ new := by
    intro hb1
    refine ⟨_, _, drw_text_blank X wd d scheme x y w h text tex0 hc hs hb1, rfl, ?_, ?_⟩
    · intro fg; simp [paints, List.lookup]
    · intro dh c f tx ty s len; simp
  rcases hb with hb | hb | hb
  · exact blank (Or.inl hb)
  · cases hfont : d.font with
    | none => exact blank (Or.inr hfont)
    | some font =>
      subst hb
      obtain ⟨len, tex, hle, _, _, _, heq⟩ :=
        drw_text_set X wd d scheme font x y w h [] tex0 hc hs hfont
      have hz : startLen (strlen ([] : List Byte)) = 0 := by
        have := startLen_le (strlen ([] : List Byte))
        simp [strlen] at this
        simpa [strlen] using this
      have h0 : len = 0 := by omega
      rw [if_pos h0] at heq
      refine ⟨_, _, heq, rfl, ?_, ?_⟩
      · intro fg; exact paints_blank d scheme font x y w h [] _ _ fg
      · intro dh c f tx ty s len; simp [preCalls, mem_loopCalls]
  · exact blank (Or.inr hb)

/-- Witness for C5: the empty string on the sample context. -/
theorem C5_drw_text_blank_box_witness :
    ∃ wd1 new, drw_text (sampleX 14) (sampleWorld (some (sampleDrw (some (sampleFont 10 4))
        (some sampleScheme)))) 0 0 50 20 (some []) ⟨0, 0⟩ = some wd1
      ∧ wd1.trace = [] ++ new
      ∧ (∀ fg, paints fg new = [Paint.fill 3 0 0 50 20 2])
      ∧ ∀ dh c f tx ty s len, Event.XftDrawStringUtf8 dh c f tx ty s len ∉ new :=
  C5_drw_text_blank_box (sampleX 14) (sampleWorld (some (sampleDrw (some (sampleFont 10 4))
    (some sampleScheme)))) (sampleDrw (some (sampleFont 10 4)) (some sampleScheme)) sampleScheme
    0 0 50 20 (some []) ⟨0, 0⟩ rfl rfl (Or.inr (Or.inl rfl))

/-- C6: `drw_rect` and `drw_underbar` called on a context that is NULL, has no
font set, or has no scheme set leave the whole state as it is: no call is
issued (no foreground change, no fill, no outline) and the context is unchanged. -/
theorem C6_rect_underbar_noop (wd : World) (x y : Int) (w h : Nat)
    (filled empty invert active : Int)
    (hn : wd.ctx = none ∨ ∃ d, wd.ctx = some d ∧ (d.font = none ∨ d.scheme = none)) :
    drw_rect wd x y w h filled empty invert = wd ∧ drw_underbar wd x y w h active = wd := by
  unfold drw_rect drw_underbar
  rcases hn with hn | ⟨d, hc, hfs⟩
  · rw [hn]; exact ⟨rfl, rfl⟩
  · rw [hc]
    simp only []
    rcases hfs with hfn | hsn
    · rw [hfn]; exact ⟨rfl, rfl⟩
    · rw [hsn]
      cases d.font <;> exact ⟨rfl, rfl⟩

/-- Witness for C6: a context with a font but no scheme. -/
theorem C6_rect_underbar_noop_witness :
    drw_rect (sampleWorld (some (sampleDrw (some (sampleFont 10 4)) none))) 0 0 50 20 1 0 0
        = sampleWorld (some (sampleDrw (some (sampleFont 10 4)) none))
      ∧ drw_underbar (sampleWorld (some (sampleDrw (some (sampleFont 10 4)) none))) 0 0 50 20 1
        = sampleWorld (some (sampleDrw (some (sampleFont 10 4)) none)) :=
  C6_rect_underbar_noop (sampleWorld (some (sampleDrw (some (sampleFont 10 4)) none)))
    0 0 50 20 1 0 0 1 (Or.inr ⟨_, rfl, Or.inr rfl⟩)

/-- C9: `drw_font_getexts_width` called with a NULL context returns 4294967295
(`-1` converted to `unsigned int`) whatever the string and the length, and
issues no call: no measurement is performed. -/
theorem C9_getexts_width_null (X : Xlib) (wd : World) (text : Option (List Byte)) (len : Nat)
    (tex0 : Extnts) (hn : wd.ctx = none) :
    drw_font_getexts_width X wd text len tex0 = some (4294967295, wd) := by
  unfold drw_font_getexts_width
  rw [hn]
  rfl

/-- Witness for C9: a NULL context and the string "ab". -/
theorem C9_getexts_width_null_witness :
    drw_font_getexts_width (sampleX 14) (sampleWorld none) (some [97, 98]) 2 ⟨0, 0⟩
      = some (4294967295, sampleWorld none) :=
  C9_getexts_width_null (sampleX 14) (sampleWorld none) (some [97, 98]) 2 ⟨0, 0⟩ rfl

/-- C7, counterexample: the claim that the filled square has side
`dx = (ascent + descent + 2) / 4` fails, also when restricted to arguments for
which no `int` sum overflows; on the sample context (ascent 10, descent 4, so
`dx = 4`) `drw_rect` with `filled = 1` fills a 5 by 5 square. -/
theorem C7_rect_side_counterexample :
    ¬ (∀ (wd : World) (d : Drw) (font : Fnt) (scheme : ClrScheme) (x y : Int) (w h : Nat)
        (filled empty invert : Int),
        wd.ctx = some d → d.font = some font → d.scheme = some scheme → filled ≠ 0 →
        isInt x → isInt (x + 1) → isInt y → isInt (y + 1) →
        isInt (font.ascent + font.descent) → isInt (font.ascent + font.descent + 2) →
        (drw_rect wd x y w h filled empty invert).trace
          = wd.trace ++ [Event.XSetForeground d.dpy d.gc
              (if invert ≠ 0 then scheme.bg.rgb else scheme.fg.rgb),
            Event.XFillRectangle d.dpy d.drawable d.gc (x + 1) (y + 1)
              (toUInt (Int.tdiv (font.ascent + font.descent + 2) 4))
              (toUInt (Int.tdiv (font.ascent + font.descent + 2) 4))]) := by
  intro hall
  have h := hall (sampleWorld (some sampleCtx)) sampleCtx (sampleFont 10 4) sampleScheme
    0 0 50 20 1 0 0 rfl rfl rfl (by decide) (by decide) (by decide) (by decide) (by decide)
    (by decide) (by decide)
  revert h
  decide

theorem toUInt_toInt32 (u : Int) : toUInt (toInt32 u) = toUInt u := by
  unfold toUInt toInt32
  split <;> omega

theorem iadd_exact (a b : Int) (h : isInt (a + b)) : iadd a b = a + b := by
  unfold isInt at h
  unfold iadd toInt32
  split <;> omega

/-- C7, amended: on a context with font and scheme set, `drw_rect` with
`filled` non-zero issues one foreground change and one filled square, whatever
the requested `w` and `h`. Its top-left corner is `(x+1, y+1)` and its side is
`dx + 1` with `dx = (ascent + descent + 2) / 4` (integer division), all sums
being `int` sums: they are the exact sums whenever these fit in an `int`. For
font height 14 the side is 5. The colour is the background of the scheme when
`invert` is non-zero and its foreground otherwise. -/
theorem C7_rect_filled_square (wd : World) (d : Drw) (font : Fnt) (scheme : ClrScheme)
    (x y : Int) (w h : Nat) (filled empty invert : Int)
    (hc : wd.ctx = some d) (hf : d.font = some font) (hs : d.scheme = some scheme)
    (hfill : filled ≠ 0) :
    drw_rect wd x y w h filled empty invert
      = { wd with trace := wd.trace ++ [Event.XSetForeground d.dpy d.gc
            (if invert ≠ 0 then scheme.bg.rgb else scheme.fg.rgb),
          Event.XFillRectangle d.dpy d.drawable d.gc (iadd x 1) (iadd y 1)
            (toUInt (iadd (rectDx font) 1)) (toUInt (iadd (rectDx font) 1))] }
    ∧ (∀ fg, paints fg [Event.XSetForeground d.dpy d.gc
            (if invert ≠ 0 then scheme.bg.rgb else scheme.fg.rgb),
          Event.XFillRectangle d.dpy d.drawable d.gc (iadd x 1) (iadd y 1)
            (toUInt (iadd (rectDx font) 1)) (toUInt (iadd (rectDx font) 1))]
        = [Paint.fill d.drawable (iadd x 1) (iadd y 1)
            (toUInt (iadd (rectDx font) 1)) (toUInt (iadd (rectDx font) 1))
            (if invert ≠ 0 then scheme.bg.rgb else scheme.fg.rgb)])
    ∧ isInt (iadd x 1) ∧ isInt (iadd y 1)
    ∧ (isInt (x + 1) → iadd x 1 = x + 1)
    ∧ (isInt (y + 1) → iadd y 1 = y + 1)
    ∧ toUInt (iadd (rectDx font) 1) = toUInt (rectDx font + 1)
    ∧ (isInt (font.ascent + font.descent) → isInt (font.ascent + font.descent + 2)
        → rectDx font = Int.tdiv (font.ascent + font.descent + 2) 4)
    ∧ (font.ascent + font.descent = 14 → toUInt (iadd (rectDx font) 1) = 5) := by
  have hrange : ∀ u : Int, isInt (toInt32 u) := by
    intro u
    unfold isInt toInt32
    split <;> omega
  refine ⟨?_, ?_, hrange _, hrange _, iadd_exact x 1, iadd_exact y 1, ?_, ?_, ?_⟩
  · unfold drw_rect
    rw [hc]; simp only []; rw [hf, hs]; simp only []
    rw [if_pos hfill]
    simp [World.emit, hc, rectDx]
  · intro fg; simp [paints, List.lookup]
  · unfold iadd; exact toUInt_toInt32 _
  · intro h1 h2
    unfold rectDx
    rw [iadd_exact _ _ h1, iadd_exact _ _ h2]
  · intro h14
    unfold rectDx
    rw [iadd_exact font.ascent font.descent (by rw [h14]; decide), h14]
    decide

/-- Witness for C7: the sample context (font height 14), `filled = 1`, at the
origin: a 5 by 5 square at `(1, 1)`. -/
theorem C7_rect_filled_square_witness :
    drw_rect (sampleWorld (some sampleCtx)) 0 0 50 20 1 0 0
        = { sampleWorld (some sampleCtx) with
            trace := [Event.XSetForeground 1 4 1, Event.XFillRectangle 1 3 4 1 1 5 5] }
      ∧ iadd 0 1 = 0 + 1
      ∧ rectDx (sampleFont 10 4) = Int.tdiv ((sampleFont 10 4).ascent
          + (sampleFont 10 4).descent + 2) 4 := by
  have h := C7_rect_filled_square (sampleWorld (some sampleCtx)) sampleCtx (sampleFont 10 4)
    sampleScheme 0 0 50 20 1 0 0 rfl rfl rfl (by decide)
  refine ⟨?_, h.2.2.2.2.1 (by decide), h.2.2.2.2.2.2.2.1 (by decide) (by decide)⟩
  rw [h.1]
  decide

theorem drw_create_ok (X : Xlib) (wd : World) (dpy : Nat) (screen : Int) (root w h : Nat) :
    drw_create X true wd dpy screen root w h
      = { ctx := some { w := w, h := h, dpy := dpy, screen := screen, root := root,
                        drawable := wd.nextId + 1, gc := wd.nextId + 2,
                        scheme := none, font := none },
          trace := wd.trace ++ [Event.XCreatePixmap dpy root w h (X.DefaultDepth dpy screen)
              (wd.nextId + 1), Event.XCreateGC dpy root (wd.nextId + 2),
            Event.XSetLineAttributes dpy (wd.nextId + 2) 1],
          nextId := wd.nextId + 2,
          pixmaps := (wd.nextId + 1, (w, h)) :: wd.pixmaps } := by
  simp [drw_create, XCreatePixmap, XCreateGC, World.emit]

theorem drw_resize_some (X : Xlib) (wd : World) (d : Drw) (w h : Nat) (hc : wd.ctx = some d) :
    drw_resize X wd w h
      = { ctx := some { d with w := w, h := h, drawable := wd.nextId + 1 },
          trace := wd.trace
            ++ ((if d.drawable ≠ 0 then [Event.XFreePixmap d.dpy d.drawable] else [])
            ++ [Event.XCreatePixmap d.dpy d.root w h (X.DefaultDepth d.dpy d.screen)
                  (wd.nextId + 1)]),
          nextId := wd.nextId + 1,
          pixmaps := (wd.nextId + 1, (w, h))
            :: (if d.drawable ≠ 0 then wd.pixmaps.filter (fun p => p.1 != d.drawable)
                else wd.pixmaps) } := by
  unfold drw_resize
  rw [hc]
  by_cases h0 : d.drawable = 0
  · simp [h0, XCreatePixmap]
  · simp [h0, XCreatePixmap, XFreePixmap]

theorem sizeMatches_resize (X : Xlib) (wd : World) (w h : Nat) (hi : sizeMatches wd) :
    sizeMatches (drw_resize X wd w h) := by
  cases hc : wd.ctx with
  | none =>
    have : drw_resize X wd w h = wd := by unfold drw_resize; rw [hc]
    rw [this]; exact hi
  | some d =>
    rw [drw_resize_some X wd d w h hc]
    intro d1 hd1
    simp only [Option.some.injEq] at hd1
    subst hd1
    simp [List.lookup]

theorem sizeMatches_resizes (X : Xlib) (sizes : List (Nat × Nat)) :
    ∀ wd, sizeMatches wd → sizeMatches (resizes X wd sizes) := by
  induction sizes with
  | nil => intro wd hi; exact hi
  | cons p ps ih =>
    intro wd hi
    exact ih _ (sizeMatches_resize X wd p.1 p.2 hi)

/-- C8: after `drw_create(dpy, screen, root, w, h)` succeeds the context holds
`w` and `h` and a pixmap created with exactly these dimensions; the size
invariant (declared size = size the held pixmap was created with) then holds
after every run of `drw_resize` calls; one `drw_resize(w1, h1)` on a non-NULL
context sets the declared size to `(w1, h1)`, frees the previous pixmap exactly
when its handle is non-zero, creates the new pixmap with `(w1, h1)` on the same
display and root, and leaves display, screen, root, graphics context, font and
scheme as they were; `drw_resize` on a NULL context does nothing. -/
theorem C8_pixmap_matches_declared_size (X : Xlib) (wd : World) :
    (∀ dpy screen root w h, ∃ d,
        (drw_create X true wd dpy screen root w h).ctx = some d
        ∧ d.w = w ∧ d.h = h
        ∧ (drw_create X true wd dpy screen root w h).pixmaps.lookup d.drawable = some (w, h)
        ∧ Event.XCreatePixmap dpy root w h (X.DefaultDepth dpy screen) d.drawable
            ∈ (drw_create X true wd dpy screen root w h).trace
        ∧ ∀ sizes, sizeMatches (resizes X (drw_create X true wd dpy screen root w h) sizes))
    ∧ (∀ d w1 h1, wd.ctx = some d → ∃ d1,
        (drw_resize X wd w1 h1).ctx = some d1
        ∧ d1.w = w1 ∧ d1.h = h1
        ∧ (drw_resize X wd w1 h1).pixmaps.lookup d1.drawable = some (w1, h1)
        ∧ (drw_resize X wd w1 h1).trace = wd.trace
            ++ ((if d.drawable ≠ 0 then [Event.XFreePixmap d.dpy d.drawable] else [])
            ++ [Event.XCreatePixmap d.dpy d.root w1 h1 (X.DefaultDepth d.dpy d.screen)
                  d1.drawable])
        ∧ d1.dpy = d.dpy ∧ d1.screen = d.screen ∧ d1.root = d.root ∧ d1.gc = d.gc
        ∧ d1.font = d.font ∧ d1.scheme = d.scheme)
    ∧ (∀ w1 h1, wd.ctx = none → drw_resize X wd w1 h1 = wd) := by
  refine ⟨?_, ?_, ?_⟩
  · intro dpy screen root w h
    rw [drw_create_ok X wd dpy screen root w h]
    refine ⟨Drw.mk w h dpy screen root (wd.nextId + 1) (wd.nextId + 2) none none,
      rfl, rfl, rfl, by simp [List.lookup], by simp, ?_⟩
    intro sizes
    apply sizeMatches_resizes
    intro d1 hd1
    simp only [Option.some.injEq] at hd1
    subst hd1
    simp [List.lookup]
  · intro d w1 h1 hc
    rw [drw_resize_some X wd d w1 h1 hc]
    exact ⟨{ d with w := w1, h := h1, drawable := wd.nextId + 1 }, rfl, rfl, rfl,
      by simp [List.lookup], rfl, rfl, rfl, rfl, rfl, rfl, rfl⟩
  · intro w1 h1 hc
    unfold drw_resize
    rw [hc]

/-- Witness for C8: the sample context (800 by 20, pixmap 3) resized to 10 by 30. -/
theorem C8_pixmap_matches_declared_size_witness :
    ∃ d1, (drw_resize (sampleX 14) (sampleWorld (some (sampleDrw none none))) 10 30).ctx = some d1
      ∧ d1.w = 10 ∧ d1.h = 30
      ∧ (drw_resize (sampleX 14) (sampleWorld (some (sampleDrw none none))) 10 30).pixmaps.lookup
          d1.drawable = some (10, 30)
      ∧ (drw_resize (sampleX 14) (sampleWorld (some (sampleDrw none none))) 10 30).trace
          = [] ++ ((if (3 : Nat) ≠ 0 then [Event.XFreePixmap 1 3] else [])
              ++ [Event.XCreatePixmap 1 2 10 30 24 d1.drawable])
      ∧ d1.dpy = 1 ∧ d1.screen = 0 ∧ d1.root = 2 ∧ d1.gc = 4
      ∧ d1.font = none ∧ d1.scheme = none :=
  (C8_pixmap_matches_declared_size (sampleX 14) (sampleWorld (some (sampleDrw none none)))).2.1
    (sampleDrw none none) 10 30 rfl

/-- A `drw_text` call whose trace contains a rendering call ran on a context
with scheme and font set and was given a non-NULL string. -/
theorem drw_text_render_ctx (X : Xlib) (wd wd1 : World) (x y : Int) (w h : Nat)
    (text : Option (List Byte)) (tex0 : Extnts) (new : List Event)
    (hr : drw_text X wd x y w h text tex0 = some wd1)
    (hn : wd1.trace = wd.trace ++ new)
    (dh c f : Nat) (tx ty : Int) (s : List (Option Byte)) (len : Nat)
    (hm : Event.XftDrawStringUtf8 dh c f tx ty s len ∈ new) :
    ∃ d scheme font t, wd.ctx = some d ∧ d.scheme = some scheme ∧ d.font = some font
      ∧ text = some t := by
  have hnull : drw_text X wd x y w h text tex0 = some wd → False := by
    intro h1
    rw [h1] at hr
    have hw := Option.some.inj hr
    rw [← hw] at hn
    have hnew : new = [] := by
      have := List.append_cancel_left (hn.symm.trans (List.append_nil _).symm)
      exact this
    rw [hnew] at hm
    exact absurd hm (List.not_mem_nil _)
  cases hc : wd.ctx with
  | none => exact absurd (drw_text_null X wd x y w h text tex0 (Or.inl hc)) hnull
  | some d =>
    cases hs : d.scheme with
    | none => exact absurd (drw_text_null X wd x y w h text tex0 (Or.inr ⟨d, hc, hs⟩)) hnull
    | some scheme =>
      have hblank : text = none ∨ d.font = none → False := by
        intro hb
        rw [drw_text_blank X wd d scheme x y w h text tex0 hc hs hb] at hr
        have hw := Option.some.inj hr
        rw [← hw] at hn
        have hnew := List.append_cancel_left hn
        rw [← hnew] at hm
        simp at hm
      cases hf : d.font with
      | none => exact absurd (Or.inr hf) hblank
      | some font =>
        cases ht : text with
        | none => exact absurd (Or.inl ht) hblank
        | some t => exact ⟨d, scheme, font, t, rfl, hs, hf, rfl⟩

/-- C2, amended: for every `drw_text` call that renders a string of length
`len` from an input of length `olen` that an `int` can hold
(`strlen(text) < 2^31`, the source keeps it in `int olen`): `len <= olen`; if
`len = olen` the rendered bytes are exactly the input bytes; if `len < olen`
the rendered bytes are the first `len - min(3, len)` input bytes followed by
exactly `min(3, len)` bytes `'.'`. -/
theorem C2_ellipsis_only_when_truncated (X : Xlib) (wd wd1 : World) (x y : Int) (w h : Nat)
    (t : List Byte) (tex0 : Extnts) (new : List Event)
    (hlen : strlen t < 2147483648)
    (hr : drw_text X wd x y w h (some t) tex0 = some wd1)
    (hn : wd1.trace = wd.trace ++ new)
    (dh c f : Nat) (tx ty : Int) (s : List (Option Byte)) (len : Nat)
    (hm : Event.XftDrawStringUtf8 dh c f tx ty s len ∈ new) :
    len ≤ strlen t
    ∧ (len = strlen t → s = t.map some)
    ∧ (len < strlen t
        → s = (t.take (len - min 3 len)).map some ++ List.replicate (min 3 len) (some DOT)) := by
  obtain ⟨d, scheme, font, t1, hc, hs, hf, ht⟩ :=
    drw_text_render_ctx X wd wd1 x y w h (some t) tex0 new hr hn dh c f tx ty s len hm
  obtain ⟨hpos, hle, hs2, _⟩ :=
    drw_text_render X wd wd1 d scheme font x y w h t tex0 new hc hs hf hr hn dh c f tx ty s len hm
  have hL := startLen_eq (strlen t) hlen
  have holen := toInt32_natCast (strlen t) hlen
  rw [holen] at hs2
  have hle1 : len ≤ t.length := by
    have : len ≤ min (strlen t) 256 := hL ▸ hle
    unfold strlen at this; omega
  have hle2 : len ≤ 256 := by
    have : len ≤ min (strlen t) 256 := hL ▸ hle
    omega
  refine ⟨hle1, ?_, ?_⟩
  · intro he
    rw [hs2, drw_text_buf_cells_full t len _ hle1 hle2 (by omega)]
    have : len = t.length := he
    rw [this, List.take_length]
  · intro hlt
    rw [hs2, drw_text_buf_cells_trunc t len _ hle1 hle2 (by exact_mod_cast hlt)]
    have e1 : len - 3 = len - min 3 len := by omega
    have e2 : len - (len - 3) = min 3 len := by omega
    rw [e2, e1]

/-- Witness for C2: "abcde" in a 50 wide box, 10 per unit, height 14, renders "..". -/
theorem C2_ellipsis_only_when_truncated_witness :
    2 ≤ strlen abcde
    ∧ (2 = strlen abcde → [some 46, some 46] = abcde.map some)
    ∧ (2 < strlen abcde
        → [some 46, some 46]
          = (abcde.take (2 - min 3 2)).map some ++ List.replicate (min 3 2) (some DOT)) :=
  C2_ellipsis_only_when_truncated (sampleX 14) (sampleWorld (some sampleCtx)) sampleTruncWorld
    0 0 50 20 abcde ⟨0, 0⟩ sampleTruncCalls (by decide) (by decide) (by decide)
    11 11 5 10 13 [some 46, some 46] 2 (by decide)

theorem countdown_pairwise (L k : Nat) (hk : k ≤ L) :
    ((List.range k).map (fun j => L - j)).Pairwise (fun a b => a > b) := by
  rw [List.pairwise_map]
  have hr : (List.range k).Pairwise (fun a b => a < b) := List.pairwise_lt_range k
  refine List.Pairwise.imp_of_mem ?_ hr
  intro a b ha hb hab
  have hb1 := List.mem_range.mp hb
  show L - a > L - b
  omega

theorem loopCalls_eq_map (d : Drw) (font : Fnt) (t : List Byte) (L len : Nat) :
    loopCalls d font t L len
      = ((List.range (L - len)).map (fun j => L - j)).map
          (fun n => Event.XftTextExtentsUtf8 d.dpy font.xfont t n) := by
  simp [loopCalls, List.map_map, Function.comp_def]

/-- C3: on a context with scheme and font set, for every input string and every
measurement function the truncation loop of `drw_text` returns; the `len` it
ends with is at most `min(strlen(text), 256)`; the values `len` has at the
successive iterations (the lengths measured by the loop body) strictly
decrease, are at most `min(strlen(text), 256)` and stay above the final `len`;
`drw_text` itself returns, and every store into the 256-byte buffer it makes
(the copy and the dots) is at an index `i < len <= 256`. -/
theorem C3_truncation_terminates_in_bounds (X : Xlib) (wd : World) (d : Drw)
    (scheme : ClrScheme) (font : Fnt) (x y : Int) (w h : Nat) (t : List Byte) (tex0 : Extnts)
    (hc : wd.ctx = some d) (hs : d.scheme = some scheme) (hf : d.font = some font) :
    ∃ (len : Nat) (tex : Extnts) (lens : List Nat) (wd1 : World) (new : List Event),
      drw_text_fit X (afterFill wd d scheme x y w h) w t tex0
        = some (toInt32 (strlen t : Nat), len, tex,
            { wd with trace := wd.trace ++ (preCalls d scheme font x y w h t
                ++ lens.map (fun n => Event.XftTextExtentsUtf8 d.dpy font.xfont t n)) })
      ∧ len ≤ min (strlen t) 256
      ∧ lens.Pairwise (fun a b => a > b)
      ∧ (∀ n ∈ lens, len < n ∧ n ≤ min (strlen t) 256)
      ∧ drw_text X wd x y w h (some t) tex0 = some wd1
      ∧ wd1.trace = wd.trace ++ new
      ∧ (∀ i v, Event.bufStore i v ∈ new → i < len ∧ len ≤ 256)
      ∧ (∀ dh c f tx ty s n, Event.XftDrawStringUtf8 dh c f tx ty s n ∈ new → n = len) := by
  obtain ⟨len, tex, hle, _, _, _, heq, hfit⟩ :=
    drw_text_set_fit X wd d scheme font x y w h t tex0 hc hs hf
  have hL := startLen_le (strlen t)
  have hlen : len ≤ min (strlen t) 256 := le_trans hle hL
  rw [loopCalls_eq_map] at hfit
  by_cases h0 : len = 0
  · rw [if_pos h0] at heq
    refine ⟨len, tex, _, _, _, hfit, hlen, countdown_pairwise _ _ (Nat.sub_le _ _), ?_,
      heq, rfl, ?_, ?_⟩
    · intro n hn
      simp only [List.mem_map, List.mem_range] at hn
      obtain ⟨j, hj, rfl⟩ := hn
      omega
    · intro i v hm
      simp [preCalls, mem_loopCalls] at hm
    · intro dh c f tx ty s n hm
      simp [preCalls, mem_loopCalls] at hm
  · rw [if_neg h0] at heq
    refine ⟨len, tex, _, _, _, hfit, hlen, countdown_pairwise _ _ (Nat.sub_le _ _), ?_,
      heq, rfl, ?_, ?_⟩
    · intro n hn
      simp only [List.mem_map, List.mem_range] at hn
      obtain ⟨j, hj, rfl⟩ := hn
      omega
    · intro i v hm
      simp only [List.mem_append] at hm
      rcases hm with (hm | hm) | hm
      · simp [preCalls] at hm
      · simp [mem_loopCalls] at hm
      · unfold renderCalls at hm
        simp only [List.mem_append] at hm
        rcases hm with hm | hm
        · obtain ⟨i1, v1, hi, he⟩ := drw_text_buf_stores _ _ _ _ hm
          cases he
          exact ⟨hi, by omega⟩
        · simp at hm
    · intro dh c f tx ty s n hm
      simp only [List.mem_append] at hm
      rcases hm with (hm | hm) | hm
      · simp [preCalls] at hm
      · simp [mem_loopCalls] at hm
      · unfold renderCalls at hm
        simp only [List.mem_append] at hm
        rcases hm with hm | hm
        · obtain ⟨i1, v1, hi, he⟩ := drw_text_buf_stores _ _ _ _ hm
          cases he
        · simp at hm
          exact hm.2.2.2.2.2.2

/-- Witness for C3: "abcde" on the sample context. -/
theorem C3_truncation_terminates_in_bounds_witness :
    ∃ (len : Nat) (tex : Extnts) (lens : List Nat) (wd1 : World) (new : List Event),
      drw_text_fit (sampleX 14) (afterFill (sampleWorld (some sampleCtx)) sampleCtx sampleScheme
          0 0 50 20) 50 abcde ⟨0, 0⟩
        = some (toInt32 (strlen abcde : Nat), len, tex,
            { sampleWorld (some sampleCtx) with
              trace := [] ++ (preCalls sampleCtx sampleScheme (sampleFont 10 4) 0 0 50 20 abcde
                ++ lens.map (fun n => Event.XftTextExtentsUtf8 1 5 abcde n)) })
      ∧ len ≤ min (strlen abcde) 256
      ∧ lens.Pairwise (fun a b => a > b)
      ∧ (∀ n ∈ lens, len < n ∧ n ≤ min (strlen abcde) 256)
      ∧ drw_text (sampleX 14) (sampleWorld (some sampleCtx)) 0 0 50 20 (some abcde) ⟨0, 0⟩
          = some wd1
      ∧ wd1.trace = [] ++ new
      ∧ (∀ i v, Event.bufStore i v ∈ new → i < len ∧ len ≤ 256)
      ∧ (∀ dh c f tx ty s n, Event.XftDrawStringUtf8 dh c f tx ty s n ∈ new → n = len) :=
  C3_truncation_terminates_in_bounds (sampleX 14) (sampleWorld (some sampleCtx)) sampleCtx
    sampleScheme (sampleFont 10 4) 0 0 50 20 abcde ⟨0, 0⟩ rfl rfl rfl

/-- C4, the code at a failing input: "abcde" in a 50 wide box on a context
with font height 14 (ascent 10, descent 4), with a measurement that reports 10
per unit as horizontal advance and 0 as vertical advance. The full string is
50 wide, more than 50 - 14 = 36, yet it passes the fit test of `drw_text`
(whose margin is the reported vertical advance, here 0), the truncation loop
ends with `len = 5` and these extents, and all five bytes are rendered. -/
theorem C4_accepts_width_beyond_font_margin :
    measured (sampleX 0) sampleCtx (sampleFont 10 4) abcde 5 = ⟨50, 0⟩
    ∧ ¬ ((50 : Int) ≤ 50 - ((sampleFont 10 4).ascent + (sampleFont 10 4).descent))
    ∧ fits 50 (measured (sampleX 0) sampleCtx (sampleFont 10 4) abcde 5)
    ∧ drw_text_fit (sampleX 0) (afterFill (sampleWorld (some sampleCtx)) sampleCtx sampleScheme
          0 0 50 20) 50 abcde ⟨0, 0⟩
        = some (5, 5, ⟨50, 0⟩,
            { sampleWorld (some sampleCtx) with
              trace := [Event.XSetForeground 1 4 2, Event.XFillRectangle 1 3 4 0 0 50 20,
                Event.XftTextExtentsUtf8 1 5 abcde 5] })
    ∧ (drw_text (sampleX 0) (sampleWorld (some sampleCtx)) 0 0 50 20 (some abcde) ⟨0, 0⟩).map
          (fun wd1 => wd1.trace.filter (fun e => e matches Event.XftDrawStringUtf8 ..))
        = some [Event.XftDrawStringUtf8 11 11 5 0 13
            [some 97, some 98, some 99, some 100, some 101] 5] := by
  decide

/-- C1, the code at a failing input: "abcde" in a 50 wide box on a context with
font height 14, with a measurement that reports 10 per unit as width and the
font height as height. The full string fails the fit test and the longest
prefix that passes it has length 3 (30 <= 50 - 14, while 40 and 50 are too
wide), yet the string handed to the renderer has length 2. -/
theorem C1_renders_one_less_than_longest_fit :
    (measured (sampleX 14) sampleCtx (sampleFont 10 4) abcde 3).h
        = toUInt ((sampleFont 10 4).ascent + (sampleFont 10 4).descent)
    ∧ ¬ fits 50 (measured (sampleX 14) sampleCtx (sampleFont 10 4) abcde 5)
    ∧ ¬ fits 50 (measured (sampleX 14) sampleCtx (sampleFont 10 4) abcde 4)
    ∧ fits 50 (measured (sampleX 14) sampleCtx (sampleFont 10 4) abcde 3)
    ∧ drw_text (sampleX 14) (sampleWorld (some sampleCtx)) 0 0 50 20 (some abcde) ⟨0, 0⟩
        = some sampleTruncWorld
    ∧ sampleTruncWorld.trace.filter (fun e => e matches Event.XftDrawStringUtf8 ..)
        = [Event.XftDrawStringUtf8 11 11 5 10 13 [some 46, some 46] 2] := by
  decide

/-- C10, amended: the truncation loop of `drw_text` on a context with scheme
and font set, for a string whose length an `int` can hold
(`strlen(text) < 2^31`, the source keeps it in `int olen`) and any measurement
function.
The loop returns some `len` and extents `tex` after `k` executions of its body
(one measurement each, at the lengths `L, L-1, ..., len+1` with
`L = min(strlen(text), 256)`). If `k >= 1` and `len > 0` then `len = L - k`,
`tex` is the extents of the prefix of length `len + 1` (not of the `len` bytes
that are rendered), it passed the fit test, every measurement taken before it
(the full string and the prefixes of length `len + 2 .. L`) failed it, and
`drw_text` renders `len` bytes with `tx` computed from the width of the prefix
of length `len + 1`. Consequently, when the full string fails the fit test and
no prefix of length `2 .. L` passes it (the longest fitting prefix has length
1 at most), the loop ends with `len = 0` and `drw_text` only fills the box. -/
theorem C10_loop_keeps_longer_extents (X : Xlib) (wd : World) (d : Drw)
    (scheme : ClrScheme) (font : Fnt) (x y : Int) (w h : Nat) (t : List Byte) (tex0 : Extnts)
    (hc : wd.ctx = some d) (hs : d.scheme = some scheme) (hf : d.font = some font)
    (hlen : strlen t < 2147483648) :
    ∃ (len : Nat) (tex : Extnts) (k : Nat),
      drw_text_fit X (afterFill wd d scheme x y w h) w t tex0
        = some ((strlen t : Int), len, tex,
            { wd with trace := wd.trace ++ (preCalls d scheme font x y w h t
                ++ loopCalls d font t (min (strlen t) 256) len) })
      ∧ (loopCalls d font t (min (strlen t) 256) len).length = k
      ∧ (1 ≤ k → 0 < len →
          len = min (strlen t) 256 - k
          ∧ tex = measured X d font t (len + 1)
          ∧ fits w tex
          ∧ ¬ fits w (measured X d font t (strlen t))
          ∧ (∀ n, len + 1 < n → n ≤ min (strlen t) 256 → ¬ fits w (measured X d font t n))
          ∧ ∃ wd1, drw_text X wd x y w h (some t) tex0 = some wd1
              ∧ Event.XftDrawStringUtf8 (wd.nextId + 1) scheme.fg.xftc font.xfont
                  (toInt32 (usub (uadd (toUInt x) (w / 2))
                    ((measured X d font t (len + 1)).w / 2)))
                  (toInt32 (uadd (usub (uadd (toUInt y) (h / 2))
                    (toUInt (Int.tdiv (iadd font.ascent font.descent) 2))) (toUInt font.ascent)))
                  ((drw_text_buf t len (strlen t : Int)).cells.take len) len ∈ wd1.trace)
      ∧ (¬ fits w (measured X d font t (strlen t)) →
          (∀ n, 1 < n → n ≤ min (strlen t) 256 → ¬ fits w (measured X d font t n)) →
          len = 0
          ∧ drw_text X wd x y w h (some t) tex0
              = some { wd with trace := wd.trace ++ (preCalls d scheme font x y w h t
                  ++ loopCalls d font t (min (strlen t) 256) 0) }
          ∧ ∀ fg, paints fg (preCalls d scheme font x y w h t
                ++ loopCalls d font t (min (strlen t) 256) 0)
              = [Paint.fill d.drawable x y w h scheme.bg.rgb]) := by
  obtain ⟨len, tex, hle, h1, h2, h3, heq, hfit⟩ :=
    drw_text_set_fit X wd d scheme font x y w h t tex0 hc hs hf
  have hL := startLen_eq (strlen t) hlen
  have ho := toInt32_natCast (strlen t) hlen
  have hu : toUInt (toInt32 (strlen t : Nat)) = strlen t := by
    rw [ho]; exact toUInt_natCast _ (by omega)
  rw [hL] at hle h1 h2 heq hfit
  rw [hu] at h1 h2
  rw [ho] at hfit
  refine ⟨len, tex, _, hfit, rfl, ?_, ?_⟩
  · intro hk hpos
    rw [loopCalls_length] at hk
    have hlt : len < min (strlen t) 256 := by omega
    obtain ⟨hnf, htex, hall⟩ := h2 hlt
    refine ⟨?_, htex, h3 hpos, hnf, hall, ?_⟩
    · rw [loopCalls_length]; omega
    · rw [if_neg (by omega)] at heq
      refine ⟨_, heq, ?_⟩
      rw [← htex, ← ho]
      simp [renderCalls]
  · intro hnf hall
    have h0 : len = 0 := by
      by_contra hne
      have hpos : 0 < len := Nat.pos_of_ne_zero hne
      rcases Nat.lt_or_eq_of_le hle with hlt | he
      · have htex := (h2 hlt).2.1
        have := h3 hpos
        rw [htex] at this
        exact hall (len + 1) (by omega) (by omega) this
      · have := h3 hpos
        rw [h1 he] at this
        exact hnf this
    subst h0
    rw [if_pos rfl] at heq
    exact ⟨rfl, heq, fun fg => paints_blank d scheme font x y w h t _ _ fg⟩

/-- Witness for C10: "abcde" on the sample context, 10 per unit, height 14. In
a 50 wide box the loop body runs 3 times and ends with `len = 2` holding the
extents of "abc"; in a 25 wide box only "a" fits and nothing is rendered. -/
theorem C10_loop_keeps_longer_extents_witness :
    (∃ (len : Nat) (tex : Extnts) (k : Nat),
      drw_text_fit (sampleX 14) (afterFill (sampleWorld (some sampleCtx)) sampleCtx sampleScheme
          0 0 50 20) 50 abcde ⟨0, 0⟩
        = some ((strlen abcde : Int), len, tex,
            { sampleWorld (some sampleCtx) with
              trace := (sampleWorld (some sampleCtx)).trace
                ++ (preCalls sampleCtx sampleScheme (sampleFont 10 4) 0 0 50 20 abcde
                ++ loopCalls sampleCtx (sampleFont 10 4) abcde (min (strlen abcde) 256) len) })
      ∧ (loopCalls sampleCtx (sampleFont 10 4) abcde (min (strlen abcde) 256) len).length = k
      ∧ (1 ≤ k → 0 < len →
          len = min (strlen abcde) 256 - k
          ∧ tex = measured (sampleX 14) sampleCtx (sampleFont 10 4) abcde (len + 1)
          ∧ fits 50 tex
          ∧ ¬ fits 50 (measured (sampleX 14) sampleCtx (sampleFont 10 4) abcde (strlen abcde))
          ∧ (∀ n, len + 1 < n → n ≤ min (strlen abcde) 256
              → ¬ fits 50 (measured (sampleX 14) sampleCtx (sampleFont 10 4) abcde n))
          ∧ ∃ wd1, drw_text (sampleX 14) (sampleWorld (some sampleCtx)) 0 0 50 20 (some abcde)
                ⟨0, 0⟩ = some wd1
              ∧ Event.XftDrawStringUtf8 ((sampleWorld (some sampleCtx)).nextId + 1)
                  sampleScheme.fg.xftc (sampleFont 10 4).xfont
                  (toInt32 (usub (uadd (toUInt 0) (50 / 2))
                    ((measured (sampleX 14) sampleCtx (sampleFont 10 4) abcde (len + 1)).w / 2)))
                  (toInt32 (uadd (usub (uadd (toUInt 0) (20 / 2))
                    (toUInt (Int.tdiv (iadd (sampleFont 10 4).ascent (sampleFont 10 4).descent) 2)))
                    (toUInt (sampleFont 10 4).ascent)))
                  ((drw_text_buf abcde len (strlen abcde : Int)).cells.take len) len ∈ wd1.trace)
      ∧ (¬ fits 50 (measured (sampleX 14) sampleCtx (sampleFont 10 4) abcde (strlen abcde)) →
          (∀ n, 1 < n → n ≤ min (strlen abcde) 256
              → ¬ fits 50 (measured (sampleX 14) sampleCtx (sampleFont 10 4) abcde n)) →
          len = 0
          ∧ drw_text (sampleX 14) (sampleWorld (some sampleCtx)) 0 0 50 20 (some abcde) ⟨0, 0⟩
              = some { sampleWorld (some sampleCtx) with
                  trace := (sampleWorld (some sampleCtx)).trace
                    ++ (preCalls sampleCtx sampleScheme (sampleFont 10 4) 0 0 50 20 abcde
                    ++ loopCalls sampleCtx (sampleFont 10 4) abcde (min (strlen abcde) 256) 0) }
          ∧ ∀ fg, paints fg (preCalls sampleCtx sampleScheme (sampleFont 10 4) 0 0 50 20 abcde
                ++ loopCalls sampleCtx (sampleFont 10 4) abcde (min (strlen abcde) 256) 0)
              = [Paint.fill sampleCtx.drawable 0 0 50 20 sampleScheme.bg.rgb]))
    ∧ drw_text_fit (sampleX 14) (afterFill (sampleWorld (some sampleCtx)) sampleCtx sampleScheme
          0 0 50 20) 50 abcde ⟨0, 0⟩
        = some (5, 2, ⟨30, 14⟩,
            { sampleWorld (some sampleCtx) with trace := sampleTruncCalls.take 6 })
    ∧ fits 25 (measured (sampleX 14) sampleCtx (sampleFont 10 4) abcde 1)
    ∧ drw_text (sampleX 14) (sampleWorld (some sampleCtx)) 0 0 25 20 (some abcde) ⟨0, 0⟩
        = some { sampleWorld (some sampleCtx) with
            trace := [Event.XSetForeground 1 4 2, Event.XFillRectangle 1 3 4 0 0 25 20,
              Event.XftTextExtentsUtf8 1 5 abcde 5, Event.XftTextExtentsUtf8 1 5 abcde 5,
              Event.XftTextExtentsUtf8 1 5 abcde 4, Event.XftTextExtentsUtf8 1 5 abcde 3,
              Event.XftTextExtentsUtf8 1 5 abcde 2, Event.XftTextExtentsUtf8 1 5 abcde 1] } :=
  ⟨C10_loop_keeps_longer_extents (sampleX 14) (sampleWorld (some sampleCtx)) sampleCtx
    sampleScheme (sampleFont 10 4) 0 0 50 20 abcde ⟨0, 0⟩ rfl rfl rfl (by decide),
   by decide, by decide, by decide⟩

theorem strlen_longText : strlen longText = 2147483648 :=
  List.length_replicate 2147483648 97

theorem strlen_longerText : strlen longerText = 4294967301 :=
  List.length_replicate 4294967301 97

theorem measured_flatX (d : Drw) (font : Fnt) (t : List Byte) (n : Nat) :
    measured flatX d font t n = ⟨0, 0⟩ := rfl

theorem measured_sampleX (yoff : Int) (d : Drw) (font : Fnt) (t : List Byte) (n : Nat) :
    measured (sampleX yoff) d font t n = ⟨toUInt (10 * (n : Int)), toUInt yoff⟩ := rfl

/-- C2, counterexample: the claim fails for an input whose length an `int`
cannot hold. For 2^31 bytes 'a' and a measurement under which everything fits,
`olen` is negative, `len` stays 256 and the test `len < olen` fails: 256 bytes
'a' are rendered, without dots, although the input is longer. -/
theorem C2_ellipsis_counterexample :
    ¬ (∀ (X : Xlib) (wd wd1 : World) (x y : Int) (w h : Nat) (t : List Byte) (tex0 : Extnts)
        (new : List Event),
        drw_text X wd x y w h (some t) tex0 = some wd1 →
        wd1.trace = wd.trace ++ new →
        ∀ (dh c f : Nat) (tx ty : Int) (s : List (Option Byte)) (len : Nat),
          Event.XftDrawStringUtf8 dh c f tx ty s len ∈ new →
          len ≤ strlen t
          ∧ (len = strlen t → s = t.map some)
          ∧ (len < strlen t
              → s = (t.take (len - min 3 len)).map some
                  ++ List.replicate (min 3 len) (some DOT))) := by
  intro hall
  obtain ⟨len, tex, hle, h1, h2, h3, heq, _⟩ :=
    drw_text_set_fit flatX (sampleWorld (some sampleCtx)) sampleCtx sampleScheme (sampleFont 10 4)
      0 0 50 20 longText ⟨0, 0⟩ rfl rfl rfl
  have hL : startLen (strlen longText) = 256 := by rw [strlen_longText]; decide
  have ho : toInt32 (strlen longText : Nat) = -2147483648 := by rw [strlen_longText]; decide
  rw [hL] at hle h2
  have hlen : len = 256 := by
    by_contra hne
    have hlt : len < 256 := by omega
    have hnf := (h2 hlt).1
    rw [measured_flatX] at hnf
    exact hnf (by decide)
  subst hlen
  rw [if_neg (by decide)] at heq
  have hmem : Event.XftDrawStringUtf8 ((sampleWorld (some sampleCtx)).nextId + 1)
      sampleScheme.fg.xftc (sampleFont 10 4).xfont
      (toInt32 (usub (uadd (toUInt 0) (50 / 2)) (tex.w / 2)))
      (toInt32 (uadd (usub (uadd (toUInt 0) (20 / 2))
        (toUInt (Int.tdiv (iadd (sampleFont 10 4).ascent (sampleFont 10 4).descent) 2)))
        (toUInt (sampleFont 10 4).ascent)))
      ((drw_text_buf longText 256 (toInt32 (strlen longText : Nat))).cells.take 256) 256
      ∈ preCalls sampleCtx sampleScheme (sampleFont 10 4) 0 0 50 20 longText
        ++ loopCalls sampleCtx (sampleFont 10 4) longText (startLen (strlen longText)) 256
        ++ renderCalls flatX sampleCtx sampleScheme (sampleFont 10 4) 0 0 50 20 longText 256 tex
            ((sampleWorld (some sampleCtx)).nextId + 1) := by
    apply List.mem_append_right
    unfold renderCalls
    apply List.mem_append_right
    exact List.mem_cons_of_mem _ (List.mem_cons_self _ _)
  have hcl := (hall flatX (sampleWorld (some sampleCtx)) _ 0 0 50 20 longText ⟨0, 0⟩ _ heq rfl
    _ _ _ _ _ _ _ hmem).2.2 (by rw [strlen_longText]; decide)
  have hlen1 : 256 ≤ longText.length := by
    have := strlen_longText
    unfold strlen at this
    rw [this]; decide
  rw [drw_text_buf_cells_full longText 256 _ hlen1 (le_refl _) (by rw [ho]; decide)] at hcl
  have hdot : some DOT ∈ (longText.take (256 - min 3 256)).map some
      ++ List.replicate (min 3 256) (some DOT) :=
    List.mem_append_right _ (List.mem_replicate.mpr ⟨by decide, rfl⟩)
  rw [← hcl] at hdot
  obtain ⟨a, ha, hae⟩ := List.mem_map.mp hdot
  have ha2 : a ∈ longText := List.mem_of_mem_take ha
  have ha3 : a = 97 := List.eq_of_mem_replicate ha2
  rw [ha3] at hae
  exact absurd hae (by decide)

/-- C10, counterexample: the characterisation `len = min(strlen(text), 256) - k`
fails for an input whose length an `int` cannot hold. For 2^32 + 5 bytes 'a'
(10 per unit, reported height 14, box 50 wide) `olen` is 5, the loop starts
from 5, its body runs 3 times and it exits with `len = 2`, not with
`256 - 3`. Each execution of the loop body adds one measurement call to the
trace, after the first measurement made before the loop. -/
theorem C10_loop_length_counterexample :
    ¬ (∀ (X : Xlib) (wd : World) (d : Drw) (scheme : ClrScheme) (font : Fnt) (x y : Int)
        (w h : Nat) (t : List Byte) (tex0 : Extnts) (olen : Int) (len : Nat) (tex : Extnts)
        (wd2 : World) (k : Nat),
        wd.ctx = some d → d.scheme = some scheme → d.font = some font →
        drw_text_fit X (afterFill wd d scheme x y w h) w t tex0 = some (olen, len, tex, wd2) →
        wd2.trace.length = (afterFill wd d scheme x y w h).trace.length + 1 + k →
        1 ≤ k → 0 < len →
        len = min (strlen t) 256 - k) := by
  intro hall
  obtain ⟨len, tex, hle, h1, h2, h3, _, hfit⟩ :=
    drw_text_set_fit (sampleX 14) (sampleWorld (some sampleCtx)) sampleCtx sampleScheme
      (sampleFont 10 4) 0 0 50 20 longerText ⟨0, 0⟩ rfl rfl rfl
  have hL : startLen (strlen longerText) = 5 := by rw [strlen_longerText]; decide
  have hu : toUInt (toInt32 (strlen longerText : Nat)) = 5 := by
    rw [strlen_longerText]; decide
  rw [hL] at hle h1 h2 hfit
  rw [hu] at h1 h2
  simp only [measured_sampleX] at h1 h2
  have hge : 2 ≤ len := by
    by_contra hlt
    exact (h2 (by omega)).2.2 3 (by omega) (by omega) (by decide)
  have hle2 : len ≤ 2 := by
    by_contra hgt
    have hf := h3 (by omega)
    have hcases : len = 3 ∨ len = 4 ∨ len = 5 := by omega
    rcases hcases with h | h | h
    · subst h
      rw [(h2 (by omega)).2.1] at hf
      exact absurd hf (by decide)
    · subst h
      rw [(h2 (by omega)).2.1] at hf
      exact absurd hf (by decide)
    · subst h
      rw [h1 rfl] at hf
      exact absurd hf (by decide)
  have hlen : len = 2 := by omega
  subst hlen
  have hk := hall (sampleX 14) (sampleWorld (some sampleCtx)) sampleCtx sampleScheme
    (sampleFont 10 4) 0 0 50 20 longerText ⟨0, 0⟩ _ 2 tex _ 3 rfl rfl rfl hfit
    (by simp [loopCalls_length, preCalls, afterFill, World.emit, sampleWorld])
    (by decide) (by decide)
  rw [strlen_longerText] at hk
  exact absurd hk (by decide)

end DrwC
